import Mathlib

/-
Verification development for the TB_v2 simulation and risk-control kernel.

Shallow embedding of:
  * src/core/risk_manager.py   (RiskManager.can_open_position, position sizing,
    stop-loss predicate, per-strategy capital budgets);
  * src/backtest/engine.py     (BacktestEngine day loop: update prices, stop
    losses, signal generation with look-ahead truncation, virtual execution,
    equity recording);
  * src/strategies/stat_arb.py (pair analysis cadence, Z-score signal logic and
    the position state machine).

Modelling conventions:
  * Python floats are embedded as exact rationals; a float NaN (produced by
    pandas rolling statistics) is embedded as `Option` with `none` for NaN,
    matching Python semantics where every comparison against NaN is False.
  * Dates ("YYYY-MM-DD" strings ordered lexicographically, which for this fixed
    format is chronological order) are embedded as naturals.
  * Python dicts keyed by instrument code or pair name are embedded as
    association lists in insertion order.
  * A Python exception escaping a routine (in particular the UnboundLocalError
    raised by reading `total` in backtest mode inside can_open_position) is
    embedded as `Except.error` carrying the state at the moment of the raise;
    mutations performed before the raise persist, as they do in Python.
  * External library numerics that have no exact rational meaning (the
    statsmodels Engle-Granger p-value and the floating point square root used
    by pandas' rolling std) are oracle parameters of the embedding; everything
    around them (guards, thresholds, caching) is embedded concretely.
-/

namespace TB

/-! ## Trade signals (src/strategies/base.py) -/

/-- `Signal` enum from src/strategies/base.py. -/
inductive Sig
  | BUY
  | SELL
  | HOLD
  | CLOSE
deriving DecidableEq

/-- The metadata dict attached to a `TradeSignal`.  The source stores a free-form
dict; the engine and the StatArb callback only ever read the keys
`pair`, `target_position` (here `target`) and `role`, so only those are
embedded. -/
structure Meta where
  pair : Option String := none
  target : Option String := none
  role : Option String := none
deriving DecidableEq

/-- `TradeSignal` dataclass from src/strategies/base.py. -/
structure TradeSignal where
  strategy : String
  code : String
  market : String
  signal : Sig
  quantity : Int := 0
  price : ℚ := 0
  reason : String := ""
  metadata : Meta := {}
deriving DecidableEq

/-! ## Association-list helpers (embedding Python dicts) -/

/-- Dict lookup: first entry with the given key. -/
def alookup (k : String) (l : List (String × α)) : Option α :=
  (l.find? (fun p => p.1 == k)).map (fun p => p.2)

/-- Dict write of an existing key: replace the value at `k`, keeping order.
(The Python dicts written through this helper always contain the key.) -/
def aupdate (k : String) (v : α) (l : List (String × α)) : List (String × α) :=
  l.map (fun p => if p.1 == k then (k, v) else p)

/-- Dict `del`: remove the entry with the given key. -/
def aremove (k : String) (l : List (String × α)) : List (String × α) :=
  l.eraseP (fun p => p.1 == k)

/-- Python `int()` applied to a rational: truncation toward zero. -/
def pyInt (x : ℚ) : Int :=
  if 0 ≤ x then ⌊x⌋ else -⌊-x⌋

/-! ## Risk manager (src/core/risk_manager.py) -/

/-- `Position` dataclass from src/core/risk_manager.py. -/
structure RMPosition where
  code : String
  market : String
  side : String
  quantity : Int
  entry_price : ℚ
  current_price : ℚ := 0
  strategy : String := ""
  entry_time : Nat := 0
deriving DecidableEq

/-- `Position.market_value`: current valuation. -/
def RMPosition.market_value (p : RMPosition) : ℚ :=
  p.current_price * (p.quantity : ℚ)

/-- `Position.pnl_pct`: side-aware return in percent. -/
def RMPosition.pnl_pct (p : RMPosition) : ℚ :=
  if p.entry_price = 0 then 0
  else if p.side = "LONG" then (p.current_price - p.entry_price) / p.entry_price * 100
  else (p.entry_price - p.current_price) / p.entry_price * 100

/-- `RiskState` dataclass from src/core/risk_manager.py. -/
structure RiskState where
  total_equity : ℚ := 0
  cash : ℚ := 0
  daily_pnl : ℚ := 0
  peak_equity : ℚ := 0
  positions : List RMPosition := []
deriving DecidableEq

/-- `RiskState.drawdown_pct`. -/
def RiskState.drawdown_pct (s : RiskState) : ℚ :=
  if s.peak_equity = 0 then 0
  else (s.total_equity - s.peak_equity) / s.peak_equity * 100

/-- The `RiskManager` object: configuration fields read from settings plus the
mutable `RiskState` and the kill-switch flag.  `fallback_initial_capital`
embeds the configured nominal capital that `calculate_position_size` falls
back to when equity is zero. -/
structure RiskManager where
  backtest_mode : Bool
  max_position_pct : ℚ
  stop_loss_pct : ℚ
  daily_loss_limit_pct : ℚ
  max_drawdown_pct : ℚ
  max_positions : Nat
  min_cash_pct : ℚ
  strategy_allocation : List (String × ℚ) := []
  state : RiskState := {}
  kill_switch : Bool := false
  fallback_initial_capital : ℚ := 10000000
deriving DecidableEq

/-- `RiskManager._get_strategy_budget`. -/
def getStrategyBudget (rm : RiskManager) (strategy : String) : Option ℚ :=
  if rm.strategy_allocation.isEmpty ∨ strategy = "" then none
  else
    match alookup strategy rm.strategy_allocation with
    | none => none
    | some pct => some ((rm.state.total_equity + rm.state.cash) * pct)

/-- `RiskManager._get_strategy_used`: valuation of the open positions owned by
the strategy. -/
def getStrategyUsed (rm : RiskManager) (strategy : String) : ℚ :=
  ((rm.state.positions.filter (fun p => p.strategy == strategy)).map
    (fun p => p.market_value)).sum

/-- The seven reject reasons of `can_open_position`, in ladder order.  The
source returns distinct formatted strings; the constructors stand for those
strings one-for-one. -/
inductive RejectReason
  | killSwitch
  | dailyLoss
  | maxDrawdown
  | maxPositions
  | concentration
  | cashBuffer
  | strategyBudget
deriving DecidableEq

/-- Result of `can_open_position` when it returns: the `(bool, reason)` pair,
with `accept` standing for `(True, "OK")`. -/
inductive CheckResult
  | accept
  | reject (r : RejectReason)
deriving DecidableEq

/-- `RiskManager.can_open_position`.

Faithful to the source's control flow: the local variable `total` is assigned
only inside the `if not self.backtest_mode:` block, yet it is read again by the
concentration and cash-buffer checks below that block.  In backtest mode,
whenever the position-count check does not return first, Python raises
`UnboundLocalError`; that raise is the `Except.error` branch. -/
def canOpenPosition (rm : RiskManager) (_code : String) (marketValue : ℚ)
    (strategy : String) : Except Unit CheckResult :=
  if rm.backtest_mode then
    if rm.max_positions ≤ rm.state.positions.length then .ok (.reject .maxPositions)
    else .error ()
  else
    if rm.kill_switch then .ok (.reject .killSwitch)
    else
      let total := rm.state.total_equity + rm.state.cash
      if 0 < total ∧ rm.state.daily_pnl / total * 100 ≤ rm.daily_loss_limit_pct then
        .ok (.reject .dailyLoss)
      else if rm.state.drawdown_pct ≤ rm.max_drawdown_pct then
        .ok (.reject .maxDrawdown)
      else if rm.max_positions ≤ rm.state.positions.length then
        .ok (.reject .maxPositions)
      else if 0 < total ∧ rm.max_position_pct < marketValue / total * 100 then
        .ok (.reject .concentration)
      else if 0 < total ∧ (rm.state.cash - marketValue) / total * 100 < rm.min_cash_pct then
        .ok (.reject .cashBuffer)
      else
        match getStrategyBudget rm strategy with
        | some budget =>
          if budget < getStrategyUsed rm strategy + marketValue then
            .ok (.reject .strategyBudget)
          else .ok .accept
        | none => .ok .accept

/-- `RiskManager.check_stop_loss`. -/
def checkStopLoss (rm : RiskManager) (p : RMPosition) : Bool :=
  decide (p.pnl_pct ≤ rm.stop_loss_pct)

/-- `RiskManager.add_position`. -/
def rmAddPosition (rm : RiskManager) (p : RMPosition) : RiskManager :=
  { rm with state := { rm.state with positions := rm.state.positions ++ [p] } }

/-- `RiskManager.remove_position`. -/
def rmRemovePosition (rm : RiskManager) (code : String) : RiskManager :=
  { rm with state :=
      { rm.state with positions := rm.state.positions.filter (fun p => p.code != code) } }

/-- `RiskManager.update_prices`. -/
def rmUpdatePrices (rm : RiskManager) (prices : List (String × ℚ)) : RiskManager :=
  { rm with state :=
      { rm.state with positions := rm.state.positions.map (fun p =>
          match alookup p.code prices with
          | some v => { p with current_price := v }
          | none => p) } }

/-- `RiskManager.calculate_position_size`: equal-weight sizing at 80 percent of
the per-instrument cap, clamped to the strategy's remaining budget. -/
def calculatePositionSize (rm : RiskManager) (price : ℚ) (_market : String)
    (strategy : String) : Int :=
  let total0 := rm.state.total_equity + rm.state.cash
  let total := if total0 = 0 then rm.fallback_initial_capital else total0
  if price = 0 then 0
  else
    let target0 := total * (rm.max_position_pct / 100) * (8 / 10)
    let target :=
      match getStrategyBudget rm strategy with
      | some budget =>
        let remaining := max (budget - getStrategyUsed rm strategy) 0
        if remaining < target0 then remaining else target0
      | none => target0
    max (pyInt (target / price)) 0

/-! ## Ladder-order specification of the risk checks

`violAt` states each of the seven check conditions of `can_open_position`
independently of the sequential control flow; `firstViolation` walks them in
the documented ladder order.  These are the specification side that theorem C3
compares against the sequential source embedding. -/

/-- Does the risk state violate the given check, read off the source's
individual check conditions in isolation (live mode, where `total` is the sum
of recorded equity and cash)? -/
def violAt (rm : RiskManager) (marketValue : ℚ) (strategy : String) :
    RejectReason → Bool
  | .killSwitch => rm.kill_switch
  | .dailyLoss =>
    let total := rm.state.total_equity + rm.state.cash
    decide (0 < total ∧ rm.state.daily_pnl / total * 100 ≤ rm.daily_loss_limit_pct)
  | .maxDrawdown => decide (rm.state.drawdown_pct ≤ rm.max_drawdown_pct)
  | .maxPositions => decide (rm.max_positions ≤ rm.state.positions.length)
  | .concentration =>
    let total := rm.state.total_equity + rm.state.cash
    decide (0 < total ∧ rm.max_position_pct < marketValue / total * 100)
  | .cashBuffer =>
    let total := rm.state.total_equity + rm.state.cash
    decide (0 < total ∧ (rm.state.cash - marketValue) / total * 100 < rm.min_cash_pct)
  | .strategyBudget =>
    match getStrategyBudget rm strategy with
    | some budget => decide (budget < getStrategyUsed rm strategy + marketValue)
    | none => false

/-- Position of a reject reason in the ladder. -/
def ladderIdx : RejectReason → Nat
  | .killSwitch => 0
  | .dailyLoss => 1
  | .maxDrawdown => 2
  | .maxPositions => 3
  | .concentration => 4
  | .cashBuffer => 5
  | .strategyBudget => 6

/-- The earliest violated check in ladder order, if any — first failure wins. -/
def firstViolation (rm : RiskManager) (marketValue : ℚ) (strategy : String) :
    Option RejectReason :=
  if violAt rm marketValue strategy .killSwitch then some .killSwitch
  else if violAt rm marketValue strategy .dailyLoss then some .dailyLoss
  else if violAt rm marketValue strategy .maxDrawdown then some .maxDrawdown
  else if violAt rm marketValue strategy .maxPositions then some .maxPositions
  else if violAt rm marketValue strategy .concentration then some .concentration
  else if violAt rm marketValue strategy .cashBuffer then some .cashBuffer
  else if violAt rm marketValue strategy .strategyBudget then some .strategyBudget
  else none

/-! ## Backtest engine (src/backtest/engine.py) -/

/-- One entry of `BacktestEngine.positions` (the per-code dict value). -/
structure EnginePos where
  quantity : Int
  entry_price : ℚ
  entry_date : Nat
  market : String
  strategy : String
  current_price : ℚ
deriving DecidableEq

/-- `Trade` dataclass from src/backtest/engine.py. -/
structure Trade where
  date : Nat
  strategy : String
  code : String
  market : String
  side : String
  quantity : Int
  price : ℚ
  commission : ℚ
  slippage : ℚ
  net_amount : ℚ
  reason : String := ""
  pnl : ℚ := 0
  pnl_pct : ℚ := 0
  holding_days : Int := 0
deriving DecidableEq

/-- One entry of `BacktestEngine.equity_history`. -/
structure EquityRecord where
  date : Nat
  equity : ℚ
  cash : ℚ
  positions_value : ℚ
  positions_count : Nat
deriving DecidableEq

/-- Ghost instrumentation: what step 3 of the day loop handed to the strategy
(the truncated close series) and what the strategy produced on each simulated
day.  This record is not part of the source state; it only makes the per-day
signal-generation outputs of a run available to the no-look-ahead statement. -/
structure SigLogEntry where
  date : Nat
  truncated : List (String × List ℚ)
  signals : List TradeSignal
deriving DecidableEq

/-- The strategy plugin interface of src/strategies/base.py, restricted to the
methods the day loop calls, as explicit state passing over a strategy-state
type `σ` and a prepared-kwargs type `κ`.  `generate_signals` may update the
strategy state (StatArb does); `prepare_signal_kwargs` returning `none` embeds
the empty-dict skip. -/
structure Strategy (σ κ : Type) where
  shouldSkipDate : σ → Nat → List EquityRecord → Bool
  prepareSignalKwargs : σ → List (String × List ℚ) → Option κ
  generateSignals : σ → κ → List TradeSignal × σ
  onTradeExecuted : σ → TradeSignal → Bool → σ

/-- The mutable state of a `BacktestEngine` (constructor rates included), with
the strategy's own state threaded alongside and the ghost signal log. -/
structure EngineState (σ : Type) where
  commission_rate : ℚ
  slippage_rate : ℚ
  cash : ℚ
  positions : List (String × EnginePos)
  equity_history : List EquityRecord
  trades : List Trade
  rm : RiskManager
  strat : σ
  siglog : List SigLogEntry
deriving DecidableEq

/-- Per-instrument daily bars: a date-keyed list of closes.  Together with the
code key this embeds the `{code: DataFrame(date, close, ...)}` input. -/
abbrev Bars := List (Nat × ℚ)

/-- The `price_data` input of `BacktestEngine.run`. -/
abbrev PriceData := List (String × Bars)

/-- `BacktestEngine._calculate_equity`'s position-valuation sum: each open
position at today's close where available, else at its cached current price. -/
def positionsValue (positions : List (String × EnginePos))
    (dayPrices : List (String × ℚ)) : ℚ :=
  (positions.map (fun cp =>
    (cp.2.quantity : ℚ) * ((alookup cp.1 dayPrices).getD cp.2.current_price))).sum

/-- `BacktestEngine._calculate_equity`. -/
def calcEquity (st : EngineState σ) (dayPrices : List (String × ℚ)) : ℚ :=
  st.cash + positionsValue st.positions dayPrices

/-- `BacktestEngine._update_positions`: refresh held positions' current prices
from today's closes and mirror the same updates into the risk manager. -/
def updatePositions (st : EngineState σ) (dayPrices : List (String × ℚ)) :
    EngineState σ :=
  let priceUpdates := st.positions.filterMap (fun cp =>
    (alookup cp.1 dayPrices).map (fun v => (cp.1, v)))
  { st with
    positions := st.positions.map (fun cp =>
      match alookup cp.1 dayPrices with
      | some v => (cp.1, { cp.2 with current_price := v })
      | none => cp),
    rm := rmUpdatePrices st.rm priceUpdates }

/-- `BacktestEngine._execute_sell`: close the whole position at the slipped
price, book commission, realize pnl, notify the strategy of success. -/
def executeSell (S : Strategy σ κ) (st : EngineState σ) (date : Nat)
    (g : TradeSignal) (price : ℚ) : EngineState σ :=
  match alookup g.code st.positions with
  | none => st
  | some pos =>
    let exec_price := price * (1 - st.slippage_rate)
    let gross_amount := exec_price * (pos.quantity : ℚ)
    let commission := gross_amount * st.commission_rate
    let net_amount := gross_amount - commission
    let cost_basis := pos.entry_price * (pos.quantity : ℚ)
    let pnl := net_amount - cost_basis - cost_basis * st.commission_rate
    let pnl_pct := if 0 < cost_basis then pnl / cost_basis * 100 else 0
    let tr : Trade :=
      { date := date, strategy := g.strategy, code := g.code, market := g.market,
        side := "SELL", quantity := pos.quantity, price := exec_price,
        commission := commission, slippage := price - exec_price,
        net_amount := net_amount, reason := g.reason, pnl := pnl,
        pnl_pct := pnl_pct, holding_days := (date : Int) - (pos.entry_date : Int) }
    { st with
      cash := st.cash + net_amount,
      positions := aremove g.code st.positions,
      rm := rmRemovePosition st.rm g.code,
      trades := st.trades ++ [tr],
      strat := S.onTradeExecuted st.strat g true }

/-- The fill tail of `BacktestEngine._execute_buy` once the risk check has
accepted: debit cash, open the position, mirror it into the risk manager,
append the trade, notify the strategy of success. -/
def buyFill (S : Strategy σ κ) (st : EngineState σ) (date : Nat) (g : TradeSignal)
    (price exec_price : ℚ) (quantity : Int) (commission net_amount : ℚ) :
    EngineState σ :=
  let pos : EnginePos :=
    { quantity := quantity, entry_price := exec_price, entry_date := date,
      market := g.market, strategy := g.strategy, current_price := exec_price }
  let rmp : RMPosition :=
    { code := g.code, market := g.market, side := "LONG", quantity := quantity,
      entry_price := exec_price, current_price := exec_price,
      strategy := g.strategy, entry_time := date }
  let tr : Trade :=
    { date := date, strategy := g.strategy, code := g.code, market := g.market,
      side := "BUY", quantity := quantity, price := exec_price,
      commission := commission, slippage := exec_price - price,
      net_amount := net_amount, reason := g.reason }
  { st with
    cash := st.cash - net_amount,
    positions := st.positions ++ [(g.code, pos)],
    rm := rmAddPosition st.rm rmp,
    trades := st.trades ++ [tr],
    strat := S.onTradeExecuted st.strat g true }

/-- The risk gate of `BacktestEngine._execute_buy` and what follows it: the
source falls through to one `can_open_position` call whichever sizing branch
produced the final quantity and amounts.  A rejection drops the signal and
returns with the state untouched (in particular the strategy is not notified);
the `UnboundLocalError` raise propagates with the state untouched. -/
def buyRiskAndFill (S : Strategy σ κ) (st : EngineState σ) (date : Nat)
    (g : TradeSignal) (price exec_price : ℚ) (quantity : Int)
    (gross_amount commission net_amount : ℚ) :
    Except (EngineState σ) (EngineState σ) :=
  match canOpenPosition st.rm g.code gross_amount "" with
  | .error _ => .error st
  | .ok (.reject _) => .ok st
  | .ok .accept =>
    .ok (buyFill S st date g price exec_price quantity commission net_amount)

/-- The body of `BacktestEngine._execute_buy` after position sizing: apply
commission on the slipped gross amount; downsize to 95 percent of cash when
the full cost exceeds cash (skip when the reduced quantity is not positive);
then run the risk gate and fill. -/
def buySized (S : Strategy σ κ) (st : EngineState σ) (date : Nat)
    (g : TradeSignal) (price exec_price : ℚ) (quantity : Int) :
    Except (EngineState σ) (EngineState σ) :=
  if quantity ≤ 0 then .ok st
  else
    let gross_amount := exec_price * (quantity : ℚ)
    let commission := gross_amount * st.commission_rate
    let net_amount := gross_amount + commission
    if st.cash < net_amount then
      let q2 : Int := pyInt (st.cash * (95 / 100) / (exec_price * (1 + st.commission_rate)))
      if q2 ≤ 0 then .ok st
      else
        let gross2 := exec_price * (q2 : ℚ)
        let comm2 := gross2 * st.commission_rate
        buyRiskAndFill S st date g price exec_price q2 gross2 comm2 (gross2 + comm2)
    else
      buyRiskAndFill S st date g price exec_price quantity gross_amount commission net_amount

/-- `BacktestEngine._execute_buy`: skip if already held; size the order (the
signal's own quantity, or the risk manager's sizing when absent); then
`buySized`. -/
def executeBuy (S : Strategy σ κ) (st : EngineState σ) (date : Nat)
    (g : TradeSignal) (price : ℚ) : Except (EngineState σ) (EngineState σ) :=
  if (alookup g.code st.positions).isSome then .ok st
  else
    let exec_price := price * (1 + st.slippage_rate)
    buySized S st date g price exec_price
      (if g.quantity ≤ 0 then calculatePositionSize st.rm exec_price g.market ""
       else g.quantity)

/-- The price used by `BacktestEngine._execute_signal`: the strategy's own
price when positive, else today's close, else zero. -/
def effectivePrice (g : TradeSignal) (dayPrices : List (String × ℚ)) : ℚ :=
  if 0 < g.price then g.price else (alookup g.code dayPrices).getD 0

/-- `BacktestEngine._execute_signal`. -/
def executeSignal (S : Strategy σ κ) (st : EngineState σ) (date : Nat)
    (dayPrices : List (String × ℚ)) (g : TradeSignal) :
    Except (EngineState σ) (EngineState σ) :=
  let price := effectivePrice g dayPrices
  if price ≤ 0 then .ok st
  else
    match g.signal with
    | .BUY => executeBuy S st date g price
    | .SELL => .ok (executeSell S st date g price)
    | .CLOSE => .ok (executeSell S st date g price)
    | .HOLD => .ok st

/-- Step 4 of the day loop: execute the day's signals in order; a raise aborts
the rest of the day. -/
def processSignals (S : Strategy σ κ) :
    EngineState σ → Nat → List (String × ℚ) → List TradeSignal →
    Except (EngineState σ) (EngineState σ)
  | st, _, _, [] => .ok st
  | st, date, dayPrices, g :: gs =>
    match executeSignal S st date dayPrices g with
    | .error e => .error e
    | .ok st2 => processSignals S st2 date dayPrices gs

/-- The stop-loss condition of `BacktestEngine._check_stop_losses` for one held
position, evaluated at today's close (positions without a close today are
skipped). -/
def stopTriggered (st : EngineState σ) (dayPrices : List (String × ℚ))
    (cp : String × EnginePos) : Bool :=
  match alookup cp.1 dayPrices with
  | none => false
  | some current_price =>
    decide ((current_price - cp.2.entry_price) / cp.2.entry_price * 100 ≤ st.rm.stop_loss_pct)

/-- The CLOSE signal `_check_stop_losses` synthesizes for a stopped position. -/
def stopCloseSignal (cp : String × EnginePos) : TradeSignal :=
  { strategy := cp.2.strategy, code := cp.1, market := cp.2.market,
    signal := .CLOSE, reason := "stop loss" }

/-- `BacktestEngine._check_stop_losses`: collect the stopped positions, then
close each at today's close. -/
def checkStopLosses (S : Strategy σ κ) (st : EngineState σ) (date : Nat)
    (dayPrices : List (String × ℚ)) : EngineState σ :=
  (st.positions.filter (stopTriggered st dayPrices)).foldl
    (fun s cp => executeSell S s date (stopCloseSignal cp)
      ((alookup cp.1 dayPrices).getD 0)) st

/-- `BacktestEngine._build_price_series_cache` for one instrument: the (date,
close) pairs sorted ascending by date (Python's stable sort on the date key). -/
def sortBarsByDate (bars : Bars) : Bars :=
  bars.insertionSort (fun a b => a.1 ≤ b.1)

/-- `BacktestEngine._get_prices_until`: the closes of all bars dated on or
before `date`, in date order — the bisect_right prefix of the sorted cache. -/
def getPricesUntil (bars : Bars) (date : Nat) : List ℚ :=
  ((sortBarsByDate bars).filter (fun b => decide (b.1 ≤ date))).map (fun b => b.2)

/-- The close recorded for an instrument on a given date by the engine's price
lookup cache (`_build_price_lookup`): the last bar of that date wins, as for a
Python dict built by insertion. -/
def lookupBar (bars : Bars) (date : Nat) : Option ℚ :=
  ((bars.filter (fun b => b.1 == date)).map (fun b => b.2)).getLast?

/-- `BacktestEngine._get_day_prices`. -/
def getDayPrices (data : PriceData) (date : Nat) : List (String × ℚ) :=
  data.filterMap (fun cb => (lookupBar cb.2 date).map (fun v => (cb.1, v)))

/-- Step 3 of the day loop (`BacktestEngine._generate_strategy_signals`):
scheduling check, look-ahead truncation, strategy-specific preparation, signal
generation.  Returns the truncated series, the signals, and the strategy state
after generation. -/
def generateStrategySignals (S : Strategy σ κ) (st : EngineState σ) (date : Nat)
    (data : PriceData) : List (String × List ℚ) × List TradeSignal × σ :=
  if S.shouldSkipDate st.strat date st.equity_history then ([], [], st.strat)
  else
    let truncated := data.filterMap (fun cb =>
      let prices := getPricesUntil cb.2 date
      if prices.isEmpty then none else some (cb.1, prices))
    if truncated.isEmpty then (truncated, [], st.strat)
    else
      match S.prepareSignalKwargs st.strat truncated with
      | none => (truncated, [], st.strat)
      | some k =>
        let gen := S.generateSignals st.strat k
        (truncated, gen.1, gen.2)

/-- Steps 1–3 of the day loop: prices updated, stops closed, signals
generated (with the ghost log entry appended and the strategy state advanced).
Returns the state entering step 4 together with the day's signal list. -/
def afterSignalsState (S : Strategy σ κ) (st : EngineState σ) (date : Nat)
    (dayPrices : List (String × ℚ)) (data : PriceData) :
    EngineState σ × List TradeSignal :=
  let st1 := updatePositions st dayPrices
  let st2 := checkStopLosses S st1 date dayPrices
  let gen := generateStrategySignals S st2 date data
  let entry : SigLogEntry := { date := date, truncated := gen.1, signals := gen.2.1 }
  ({ st2 with strat := gen.2.2, siglog := st2.siglog ++ [entry] }, gen.2.1)

/-- Step 5 of the day loop: append the equity record and synchronize the risk
manager's equity, cash and peak-equity watermark. -/
def recordEquity (st4 : EngineState σ) (date : Nat)
    (dayPrices : List (String × ℚ)) : EngineState σ :=
  let equity := calcEquity st4 dayPrices
  let record : EquityRecord :=
    { date := date, equity := equity, cash := st4.cash,
      positions_value := equity - st4.cash, positions_count := st4.positions.length }
  let rm1 := { st4.rm with state :=
    { st4.rm.state with total_equity := equity, cash := st4.cash } }
  let rm2 :=
    if rm1.state.peak_equity < equity then
      { rm1 with state := { rm1.state with peak_equity := equity } }
    else rm1
  { st4 with equity_history := st4.equity_history ++ [record], rm := rm2 }

/-- `BacktestEngine._simulate_day`: the five-step day loop.  A raise escaping
signal execution aborts the day (no equity record is appended for it). -/
def simulateDay (S : Strategy σ κ) (st : EngineState σ) (date : Nat)
    (dayPrices : List (String × ℚ)) (data : PriceData) :
    Except (EngineState σ) (EngineState σ) :=
  let pre := afterSignalsState S st date dayPrices data
  match processSignals S pre.1 date dayPrices pre.2 with
  | .error e => .error e
  | .ok st4 => .ok (recordEquity st4 date dayPrices)

/-- `BacktestEngine._build_date_index`: the sorted set of all bar dates,
clipped to the requested range. -/
def buildDateIndex (data : PriceData) (startDate endDate : Option Nat) : List Nat :=
  let allDates := ((data.map (fun cb => cb.2.map (fun b => b.1))).flatten).dedup
  let sorted := allDates.insertionSort (fun a b => a ≤ b)
  let sorted1 :=
    match startDate with
    | some s => sorted.filter (fun d => decide (s ≤ d))
    | none => sorted
  match endDate with
  | some e => sorted1.filter (fun d => decide (d ≤ e))
  | none => sorted1

/-- The daily simulation loop of `BacktestEngine.run`: days without any close
are skipped, a raise ends the run with the state at the raise. -/
def runDays (S : Strategy σ κ) :
    EngineState σ → PriceData → List Nat → Except (EngineState σ) (EngineState σ)
  | st, _, [] => .ok st
  | st, data, d :: ds =>
    let dp := getDayPrices data d
    if dp.isEmpty then runDays S st data ds
    else
      match simulateDay S st d dp data with
      | .error e => .error e
      | .ok st2 => runDays S st2 data ds

/-- `BacktestEngine.run` up to the end of the daily loop (the post-loop forced
liquidation is outside every claim's scope). -/
def runBacktest (S : Strategy σ κ) (st : EngineState σ) (data : PriceData)
    (startDate endDate : Option Nat) : Except (EngineState σ) (EngineState σ) :=
  runDays S st data (buildDateIndex data startDate endDate)

/-- The ghost signal log of a finished or aborted run. -/
def logOf : Except (EngineState σ) (EngineState σ) → List SigLogEntry
  | .ok st => st.siglog
  | .error st => st.siglog

/-- A dataset truncated to the bars dated on or before `D`. -/
def truncData (data : PriceData) (D : Nat) : PriceData :=
  data.map (fun cb => (cb.1, cb.2.filter (fun b => decide (b.1 ≤ D))))

/-- Two price datasets agree on every bar dated on or before `D`. -/
def agreeUpTo (D : Nat) (d1 d2 : PriceData) : Prop :=
  truncData d1 D = truncData d2 D

/-- Every instrument's bars come date-sorted (the ordered daily-bar input). -/
def SortedData (data : PriceData) : Prop :=
  ∀ cb ∈ data, List.Sorted (fun a b : Nat × ℚ => a.1 ≤ b.1) cb.2

/-! ## StatArb strategy (src/strategies/stat_arb.py) -/

/-- `PairConfig` dataclass (exchange fields are never read by the analysis or
signal logic and are omitted). -/
structure PairConfig where
  name : String
  market : String
  stock_a : String
  stock_b : String
  hedge_etf : String
deriving DecidableEq

/-- `PairState` dataclass.  Float fields that can carry a pandas NaN are
embedded as `Option ℚ` with `none` for NaN; their initial 0.0 is `some 0`. -/
structure PairState where
  beta : ℚ := 0
  spread_mean : Option ℚ := some 0
  spread_std : Option ℚ := some 0
  current_z : Option ℚ := some 0
  is_cointegrated : Bool := false
  p_value : ℚ := 1
  position : String := "NONE"
deriving DecidableEq

/-- The StatArb parameters read from configuration at construction. -/
structure StatArbCfg where
  lookback : Nat
  entry_z : ℚ
  exit_z : ℚ
  stop_z : ℚ
  recalc_days : Nat
  coint_pvalue : ℚ := 1 / 20
deriving DecidableEq

/-- Oracle parameters for the two external library numerics with no exact
rational meaning: the Engle-Granger p-value that `statsmodels.coint` computes
on the log-price series, and the floating point square root inside pandas'
rolling standard deviation.  All guards, thresholds and caching around them
are embedded concretely. -/
structure StatArbOracles where
  cointPValue : List ℚ → List ℚ → ℚ
  sqrtQ : ℚ → ℚ

/-- The mutable state of a `StatArbStrategy` instance. -/
structure StatArbState where
  enabled : Bool := true
  pairs : List PairConfig
  pair_states : List (String × PairState)
  last_coint_len : List (String × Nat) := []
deriving DecidableEq

/-- `StatArbStrategy.test_cointegration`: below 30 bars the test is refused
with `(False, 1.0)`; otherwise the p-value is compared to the threshold. -/
def testCointegration (O : StatArbOracles) (cfg : StatArbCfg)
    (prices_a prices_b : List ℚ) : Bool × ℚ :=
  if prices_a.length < 30 ∨ prices_b.length < 30 then (false, 1)
  else
    let p_value := O.cointPValue prices_a prices_b
    (decide (p_value < cfg.coint_pvalue), p_value)

/-- `StatArbStrategy.calculate_hedge_ratio`: the ordinary-least-squares slope
of regressing `prices_a` on `prices_b` (what sklearn's LinearRegression fit
computes), in closed form from the normal equations. -/
def calculateHedgeRatio (prices_a prices_b : List ℚ) : ℚ :=
  let xy := prices_b.zip prices_a
  let n : ℚ := (xy.length : ℚ)
  let sx := (xy.map (fun p => p.1)).sum
  let sy := (xy.map (fun p => p.2)).sum
  let sxx := (xy.map (fun p => p.1 * p.1)).sum
  let sxy := (xy.map (fun p => p.1 * p.2)).sum
  (n * sxy - sx * sy) / (n * sxx - sx * sx)

/-- `StatArbStrategy.calculate_spread`: `A - beta * B`, elementwise. -/
def calculateSpread (prices_a prices_b : List ℚ) (beta : ℚ) : List ℚ :=
  List.zipWith (fun a b => a - beta * b) prices_a prices_b

/-- The trailing window of width `w` ending at index `i`. -/
def windowAt (xs : List ℚ) (w : Nat) (i : Nat) : List ℚ :=
  (xs.take (i + 1)).drop (i + 1 - w)

/-- Pandas `rolling(window=w).mean()`: NaN before a full window. -/
def rollingMean (xs : List ℚ) (w : Nat) : List (Option ℚ) :=
  (List.range xs.length).map (fun i =>
    if i + 1 < w ∨ w = 0 then none
    else some ((windowAt xs w i).sum / (w : ℚ)))

/-- Sample standard deviation (ddof = 1) of a window, NaN below two points;
the square root is the oracle. -/
def sampleStd (O : StatArbOracles) (ys : List ℚ) : Option ℚ :=
  if ys.length < 2 then none
  else
    let m := ys.sum / (ys.length : ℚ)
    some (O.sqrtQ (((ys.map (fun y => (y - m) * (y - m))).sum) / ((ys.length : ℚ) - 1)))

/-- Pandas `rolling(window=w).std()`. -/
def rollingStd (O : StatArbOracles) (xs : List ℚ) (w : Nat) : List (Option ℚ) :=
  (List.range xs.length).map (fun i =>
    if i + 1 < w ∨ w = 0 then none
    else sampleStd O (windowAt xs w i))

/-- `StatArbStrategy.calculate_z_score`: `(spread - rolling mean) / rolling
std`, with a zero std replaced by NaN. -/
def calculateZScore (O : StatArbOracles) (cfg : StatArbCfg) (spread : List ℚ) :
    List (Option ℚ) :=
  let w := cfg.lookback
  let m := rollingMean spread w
  let s := rollingStd O spread w
  (List.range spread.length).map (fun i =>
    match m.getD i none, s.getD i none with
    | some mu, some sd =>
      if sd = 0 then none else some ((spread.getD i 0 - mu) / sd)
    | _, _ => none)

/-- The last element of a NaN-marked series, NaN if the series is empty. -/
def lastO (l : List (Option ℚ)) : Option ℚ :=
  match l.getLast? with
  | some v => v
  | none => none

/-- `StatArbStrategy._should_recalc_coint`: the data has grown by at least
`recalc_beta_days` bars since the last test, or the pair was never tested. -/
def shouldRecalcCoint (cfg : StatArbCfg) (st : StatArbState) (name : String)
    (data_len : Nat) : Bool :=
  let last_len := (alookup name st.last_coint_len).getD 0
  decide ((cfg.recalc_days : Int) ≤ (data_len : Int) - (last_len : Int)) ||
    decide (last_len = 0)

/-- `StatArbStrategy.analyze_pair`: re-test cointegration only at the recheck
cadence, refit the hedge ratio only when the recheck confirms cointegration,
stop before any spread work when the cached flag is false, else recompute the
spread statistics and Z-score.  Returns the pair state the caller sees plus
the whole strategy state with the mutation written back. -/
def analyzePair (O : StatArbOracles) (cfg : StatArbCfg) (st : StatArbState)
    (pair : PairConfig) (prices_a prices_b : List ℚ) : PairState × StatArbState :=
  let ps0 := (alookup pair.name st.pair_states).getD {}
  let data_len := min prices_a.length prices_b.length
  let step1 :=
    if shouldRecalcCoint cfg st pair.name data_len then
      let tc := testCointegration O cfg prices_a prices_b
      let psA := { ps0 with is_cointegrated := tc.1, p_value := tc.2 }
      let psB := if tc.1 then { psA with beta := calculateHedgeRatio prices_a prices_b } else psA
      (psB, { st with last_coint_len := aupdate pair.name data_len st.last_coint_len })
    else (ps0, st)
  let ps1 := step1.1
  let st1 := step1.2
  if ¬ ps1.is_cointegrated then
    (ps1, { st1 with pair_states := aupdate pair.name ps1 st1.pair_states })
  else
    let spread := calculateSpread prices_a prices_b ps1.beta
    let z_scores := calculateZScore O cfg spread
    let ps2 :=
      if ¬ z_scores.isEmpty ∧ ¬ (z_scores.all Option.isNone) then
        { ps1 with current_z := lastO z_scores,
                   spread_mean := lastO (rollingMean spread cfg.lookback),
                   spread_std := lastO (rollingStd O spread cfg.lookback) }
      else ps1
    (ps2, { st1 with pair_states := aupdate pair.name ps2 st1.pair_states })

/-- Python float comparison `abs(z) > c` with NaN on the left: False on NaN. -/
def absGtO (z : Option ℚ) (c : ℚ) : Bool :=
  match z with
  | some v => decide (c < |v|)
  | none => false

/-- Python float comparison `abs(z) < c` with NaN on the left: False on NaN. -/
def absLtO (z : Option ℚ) (c : ℚ) : Bool :=
  match z with
  | some v => decide (|v| < c)
  | none => false

/-- Python float comparison `z > c` with NaN on the left: False on NaN. -/
def gtO (z : Option ℚ) (c : ℚ) : Bool :=
  match z with
  | some v => decide (c < v)
  | none => false

/-- Python float comparison `z < -c` with NaN on the left: False on NaN. -/
def ltNegO (z : Option ℚ) (c : ℚ) : Bool :=
  match z with
  | some v => decide (v < -c)
  | none => false

/-- `StatArbStrategy._close_signals`: close the held leg, then always unwind
the inverse-ETF hedge. -/
def closeSignals (pair : PairConfig) (ps : PairState) (reason : String) :
    List TradeSignal :=
  (if ps.position = "LONG_A" then
    [{ strategy := "StatArb", code := pair.stock_a, market := pair.market,
       signal := .CLOSE, reason := reason, metadata := { pair := some pair.name } }]
   else if ps.position = "LONG_B" then
    [{ strategy := "StatArb", code := pair.stock_b, market := pair.market,
       signal := .CLOSE, reason := reason, metadata := { pair := some pair.name } }]
   else []) ++
  [{ strategy := "StatArb", code := pair.hedge_etf, market := pair.market,
     signal := .CLOSE, reason := reason,
     metadata := { pair := some pair.name, role := some "hedge" } }]

/-- The entry pair of signals when A is relatively overvalued: long B plus the
hedge ETF, the target position only in the metadata. -/
def entrySignalsB (pair : PairConfig) : List TradeSignal :=
  [{ strategy := "StatArb", code := pair.stock_b, market := pair.market,
     signal := .BUY, reason := "enter long B",
     metadata := { pair := some pair.name, target := some "LONG_B" } },
   { strategy := "StatArb", code := pair.hedge_etf, market := pair.market,
     signal := .BUY, reason := "hedge",
     metadata := { pair := some pair.name, role := some "hedge" } }]

/-- The entry pair of signals when A is relatively undervalued: long A plus the
hedge ETF. -/
def entrySignalsA (pair : PairConfig) : List TradeSignal :=
  [{ strategy := "StatArb", code := pair.stock_a, market := pair.market,
     signal := .BUY, reason := "enter long A",
     metadata := { pair := some pair.name, target := some "LONG_A" } },
   { strategy := "StatArb", code := pair.hedge_etf, market := pair.market,
     signal := .BUY, reason := "hedge",
     metadata := { pair := some pair.name, role := some "hedge" } }]

/-- The per-pair body of `StatArbStrategy.generate_signals`: analyze, gate on
cointegration, then stop / exit / entry in that priority order.  The position
field is deliberately not written here. -/
def statArbStep (O : StatArbOracles) (cfg : StatArbCfg) (st : StatArbState)
    (pair_data : List (String × (List ℚ × List ℚ))) (pair : PairConfig) :
    List TradeSignal × StatArbState :=
  match alookup pair.name pair_data with
  | none => ([], st)
  | some pd =>
    let a := analyzePair O cfg st pair pd.1 pd.2
    let ps := a.1
    let st1 := a.2
    if ¬ ps.is_cointegrated then ([], st1)
    else
      let z := ps.current_z
      if ps.position ≠ "NONE" ∧ absGtO z cfg.stop_z then
        (closeSignals pair ps "stop", st1)
      else if ps.position ≠ "NONE" ∧ absLtO z cfg.exit_z then
        (closeSignals pair ps "mean reversion", st1)
      else if ps.position = "NONE" then
        if gtO z cfg.entry_z then (entrySignalsB pair, st1)
        else if ltNegO z cfg.entry_z then (entrySignalsA pair, st1)
        else ([], st1)
      else ([], st1)

/-- `StatArbStrategy.generate_signals` over all configured pairs. -/
def statArbGenerate (O : StatArbOracles) (cfg : StatArbCfg) (st : StatArbState)
    (pair_data : List (String × (List ℚ × List ℚ))) :
    List TradeSignal × StatArbState :=
  if ¬ st.enabled then ([], st)
  else
    st.pairs.foldl (fun acc pair =>
      let step := statArbStep O cfg acc.2 pair_data pair
      (acc.1 ++ step.1, step.2)) ([], st)

/-- `StatArbStrategy.on_trade_executed`: the only place the pair position
state is written — a successful BUY installs the metadata target, a successful
non-hedge CLOSE resets to NONE, everything else leaves the state untouched. -/
def statArbOnTradeExecuted (st : StatArbState) (g : TradeSignal)
    (success : Bool) : StatArbState :=
  match g.metadata.pair with
  | none => st
  | some name =>
    match alookup name st.pair_states with
    | none => st
    | some ps =>
      if g.signal = .BUY ∧ success then
        match g.metadata.target with
        | some t =>
          if t = "LONG_A" ∨ t = "LONG_B" then
            { st with pair_states := aupdate name { ps with position := t } st.pair_states }
          else st
        | none => st
      else if g.signal = .CLOSE ∧ success then
        if g.metadata.role ≠ some "hedge" then
          { st with pair_states := aupdate name { ps with position := "NONE" } st.pair_states }
        else st
      else st

/-- The position state of one pair, as a projection of the strategy state. -/
def pairPosition (st : StatArbState) (name : String) : Option String :=
  (alookup name st.pair_states).map (fun ps => ps.position)

/-! ## Concrete fixtures for the theorems below -/

/-- The risk manager exactly as `BacktestEngine.__init__` builds it: backtest
mode, the documented default limits, equity watermarks seeded with the initial
capital. -/
def rmBacktest : RiskManager :=
  { backtest_mode := true, max_position_pct := 10, stop_loss_pct := -7,
    daily_loss_limit_pct := -2, max_drawdown_pct := -10, max_positions := 10,
    min_cash_pct := 20,
    state := { total_equity := 10000000, cash := 10000000, peak_equity := 10000000 } }

/-- A live-mode risk state that violates both the position-count check
(`max_positions = 1` with one open position) and the concentration check
(a 1000 order against 2000 of total capital is 50 percent, far above the
10 percent cap). -/
def rmLiveWPos : RMPosition :=
  { code := "OLD", market := "KR", side := "LONG", quantity := 1,
    entry_price := 100, current_price := 100 }

def rmLiveWState : RiskState :=
  { total_equity := 1000, cash := 1000, peak_equity := 1000,
    positions := [rmLiveWPos] }

def rmLiveW : RiskManager :=
  { backtest_mode := false, max_position_pct := 10, stop_loss_pct := -7,
    daily_loss_limit_pct := -2, max_drawdown_pct := -10, max_positions := 1,
    min_cash_pct := 20, state := rmLiveWState }

/-- The configured StatArb parameters (settings.yaml defaults). -/
def cfgW : StatArbCfg :=
  { lookback := 20, entry_z := 2, exit_z := 1 / 2, stop_z := 7 / 2, recalc_days := 20 }

/-- A fixed choice of the external-library oracles. -/
def OW : StatArbOracles :=
  { cointPValue := fun _ _ => 1, sqrtQ := fun _ => 1 }

/-- The first configured pair. -/
def pairW : PairConfig :=
  { name := "P", market := "US", stock_a := "MSFT", stock_b := "GOOGL", hedge_etf := "PSQ" }

/-- A freshly constructed StatArb state: one pair, flat, never tested. -/
def stW6 : StatArbState :=
  { pairs := [pairW], pair_states := [("P", {})] }

/-- A StatArb state whose pair carries a stale hedge ratio 5 and has never been
cointegration-tested (so the next `analyze_pair` call is a recheck). -/
def stW7 : StatArbState :=
  { pairs := [pairW], pair_states := [("P", { beta := 5 })] }

/-- Two-bar price series (short enough that the cointegration test refuses and
reports `(False, 1.0)`), with OLS slope exactly 1. -/
def aW : List ℚ := [1, 2]

def bW : List ℚ := [1, 2]

/-- Pair data handed to `generate_signals` in the C6 witness. -/
def pdW : List (String × (List ℚ × List ℚ)) := [("P", (aW, bW))]

/-- An entry signal for the C6 witness, as `generate_signals` emits it. -/
def sigW6 : TradeSignal :=
  { strategy := "StatArb", code := "MSFT", market := "US", signal := .BUY,
    reason := "enter long A", metadata := { pair := some "P", target := some "LONG_A" } }

/-- A strategy whose state counts its `on_trade_executed` callbacks, making
"the strategy was notified" observable in the final state. -/
def countStrategy : Strategy Nat Unit :=
  { shouldSkipDate := fun _ _ _ => false,
    prepareSignalKwargs := fun _ _ => some (),
    generateSignals := fun s _ => ([], s),
    onTradeExecuted := fun s _ _ => s + 1 }

/-- One open risk-manager position mirroring `heldPos`. -/
def rmHeldPos : RMPosition :=
  { code := "OLD", market := "KR", side := "LONG", quantity := 1,
    entry_price := 100, current_price := 100, strategy := "s" }

def rmAtCapState : RiskState :=
  { total_equity := 10000000, cash := 10000000, peak_equity := 10000000,
    positions := [rmHeldPos] }

/-- A backtest risk manager already at its position cap, so the risk gate
rejects (the position-count check fires before the unbound `total` is read). -/
def rmAtCap : RiskManager :=
  { backtest_mode := true, max_position_pct := 10, stop_loss_pct := -7,
    daily_loss_limit_pct := -2, max_drawdown_pct := -10, max_positions := 1,
    min_cash_pct := 20, state := rmAtCapState }

/-- One held engine position. -/
def heldPos : EnginePos :=
  { quantity := 1, entry_price := 100, entry_date := 0, market := "KR",
    strategy := "s", current_price := 100 }

/-- Engine state for the C5 counterexample: engine rates as constructed,
one held position, risk manager at its cap, callback counter at zero. -/
def stC5 : EngineState Nat :=
  { commission_rate := 15 / 100000, slippage_rate := 1 / 1000, cash := 10000000,
    positions := [("OLD", heldPos)], equity_history := [], trades := [],
    rm := rmAtCap, strat := 0, siglog := [] }

/-- A BUY for a code that is not held, with an explicit quantity. -/
def sigC5 : TradeSignal :=
  { strategy := "s", code := "NEW", market := "KR", signal := .BUY, quantity := 1 }

/-- The state a Python exception or normal return leaves behind. -/
def stateOf : Except (EngineState σ) (EngineState σ) → EngineState σ
  | .ok st => st
  | .error st => st

/-- A do-nothing strategy: no scheduling skips, no signals, no state. -/
def trivialStrategy : Strategy Unit Unit :=
  { shouldSkipDate := fun _ _ _ => false,
    prepareSignalKwargs := fun _ _ => none,
    generateSignals := fun s _ => ([], s),
    onTradeExecuted := fun s _ _ => s }

/-- Scenario D's engine state: fresh `BacktestEngine(strategy,
initial_capital=10_000_000, commission_rate=0.00015, slippage_rate=0.001)`. -/
def stD : EngineState Unit :=
  { commission_rate := 15 / 100000, slippage_rate := 1 / 1000, cash := 10000000,
    positions := [], equity_history := [], trades := [], rm := rmBacktest,
    strat := (), siglog := [] }

/-- Scenario D's single BUY: quantity 10 at price 1000. -/
def sigD : TradeSignal :=
  { strategy := "s", code := "A", market := "KR", signal := .BUY, quantity := 10 }

/-- The well-formedness that the cash invariant runs on: non-negative cash,
rates in `[0, 1]` (one-way commission 0.015 percent and slippage 0.1 percent
in the constructor), and no short engine positions (every position the engine
opens has positive quantity). -/
def CashWF (st : EngineState σ) : Prop :=
  0 ≤ st.cash ∧ 0 ≤ st.slippage_rate ∧ st.slippage_rate ≤ 1 ∧
  0 ≤ st.commission_rate ∧ st.commission_rate ≤ 1 ∧
  ∀ cp ∈ st.positions, 0 ≤ cp.2.quantity

/-- A one-instrument dataset with a single bar, for run-level witnesses. -/
def dataW : PriceData := [("A", [(1, 100)])]

/-- The engine's position dict has no duplicate instrument codes (a Python
dict cannot; every state the engine builds satisfies this). -/
def keysNodup (st : EngineState σ) : Prop :=
  (st.positions.map (fun cp => cp.1)).Nodup

/-- A protocol-conforming strategy for the C9 counterexample: its state is a
flag set by a successful execution callback (as §4.1 allows), and its signals
depend on that flag — it closes X while the flag is unset and Y afterwards. -/
def flipStrategy : Strategy Bool Unit :=
  { shouldSkipDate := fun _ _ _ => false,
    prepareSignalKwargs := fun _ _ => some (),
    generateSignals := fun b _ =>
      (if b then [{ strategy := "s", code := "Y", market := "KR", signal := .CLOSE, price := 100 }]
       else [{ strategy := "s", code := "X", market := "KR", signal := .CLOSE, price := 100 }], b),
    onTradeExecuted := fun b _ success => if success then true else b }

def posX : EnginePos :=
  { quantity := 1, entry_price := 100, entry_date := 0, market := "KR",
    strategy := "s", current_price := 100 }

def posY : EnginePos :=
  { quantity := 2, entry_price := 100, entry_date := 0, market := "KR",
    strategy := "s", current_price := 100 }

/-- Engine state for the C9 counterexample: two held positions, zero rates
(a legal engine configuration), flag unset. -/
def st9 : EngineState Bool :=
  { commission_rate := 0, slippage_rate := 0, cash := 1000,
    positions := [("X", posX), ("Y", posY)], equity_history := [], trades := [],
    rm := rmBacktest, strat := false, siglog := [] }

/-- Price data for the C9 counterexample: one bar for an instrument that is
not held, so the stop-loss scan has nothing to price. -/
def data9 : PriceData := [("Z", [(5, 100)])]

/-- Day 5's closes for that dataset. -/
def dp9 : List (String × ℚ) := [("Z", 100)]

/-- Two one-instrument datasets that agree up to day 2 and then diverge
wildly on day 3 (the look-ahead witness pair). -/
def dataC1a : PriceData := [("A", [(1, 100), (3, 999)])]

/-- The partner dataset: same bars through day 2, a different day-3 close. -/
def dataC1b : PriceData := [("A", [(1, 100), (3, 7)])]

/-! # Theorems -/

/-! ## C2 — backtest-mode risk check -/

/-- C2: refuted by the code.  In backtest mode with the position-count check
passing (no open position against a cap of 10), `can_open_position` does not
return a `(bool, reason)` pair at all: it raises `UnboundLocalError`, because
`total` is assigned only inside the `if not self.backtest_mode:` block yet is
read by the concentration check.  Evaluates the embedded check at the failing
input from `BacktestEngine.__init__`'s own risk manager. -/
theorem c2_backtest_can_open_position_raises :
    canOpenPosition rmBacktest "AAA" 500000 "" = .error () ∧
    rmBacktest.state.positions.length < rmBacktest.max_positions := by
  constructor
  · norm_num [canOpenPosition, rmBacktest]
  · norm_num [rmBacktest]

/-! ## C3 — risk ladder ordering (live mode) -/

/-- If the ladder walk reports a violation, that check is indeed violated and
no earlier check is. -/
theorem firstViolation_spec (rm : RiskManager) (mv : ℚ) (s : String)
    (r : RejectReason) (h : firstViolation rm mv s = some r) :
    violAt rm mv s r = true ∧
    ∀ r', violAt rm mv s r' = true → ladderIdx r ≤ ladderIdx r' := by
  unfold firstViolation at h
  split_ifs at h with h1 h2 h3 h4 h5 h6 h7 <;>
    first
    | exact Option.noConfusion h
    | (injection h with h
       subst h
       refine ⟨by assumption, fun r' hr' => ?_⟩
       rcases r' <;> simp_all [ladderIdx])

/-- If the ladder walk reports nothing, no check is violated. -/
theorem firstViolation_none_spec (rm : RiskManager) (mv : ℚ) (s : String)
    (h : firstViolation rm mv s = none) :
    ∀ r, violAt rm mv s r = false := by
  unfold firstViolation at h
  split_ifs at h <;> first
    | exact Option.noConfusion h
    | (intro r; rcases r <;> simp_all)

/-- In live mode the sequential source embedding returns exactly the earliest
ladder violation (or accepts). -/
theorem canOpenPosition_live_eq (rm : RiskManager) (code : String) (mv : ℚ)
    (s : String) (hlive : rm.backtest_mode = false) :
    canOpenPosition rm code mv s =
      .ok (match firstViolation rm mv s with
           | some r => .reject r
           | none => .accept) := by
  cases hb : getStrategyBudget rm s with
  | none =>
    simp only [canOpenPosition, firstViolation, violAt, hlive, Bool.false_eq_true, if_false,
      decide_eq_true_eq, hb]
    split_ifs <;> simp_all
  | some budget =>
    simp only [canOpenPosition, firstViolation, violAt, hlive, Bool.false_eq_true, if_false,
      decide_eq_true_eq, hb]
    split_ifs <;> simp_all

/-- C3: in live mode, whenever two or more of the seven checks are violated at
once, `can_open_position` rejects with the reason of the earliest violated
check in the fixed ladder order, never a later one. -/
theorem c3_risk_ladder_ordering (rm : RiskManager) (code : String) (mv : ℚ)
    (strategy : String) (r₁ r₂ : RejectReason)
    (hlive : rm.backtest_mode = false)
    (h1 : violAt rm mv strategy r₁ = true)
    (h2 : violAt rm mv strategy r₂ = true)
    (hne : r₁ ≠ r₂) :
    ∃ r, canOpenPosition rm code mv strategy = .ok (.reject r) ∧
      violAt rm mv strategy r = true ∧
      ∀ r', violAt rm mv strategy r' = true → ladderIdx r ≤ ladderIdx r' := by
  cases hfv : firstViolation rm mv strategy with
  | none =>
    have := firstViolation_none_spec rm mv strategy hfv r₁
    simp [this] at h1
  | some r =>
    obtain ⟨hvr, hmin⟩ := firstViolation_spec rm mv strategy r hfv
    refine ⟨r, ?_, hvr, hmin⟩
    rw [canOpenPosition_live_eq rm code mv strategy hlive, hfv]

/-- Witness for C3: a live state violating both the position-count and the
concentration checks is rejected for position count, the earlier of the two. -/
theorem c3_risk_ladder_ordering_witness :
    rmLiveW.backtest_mode = false ∧
    violAt rmLiveW 1000 "sa" .maxPositions = true ∧
    violAt rmLiveW 1000 "sa" .concentration = true ∧
    ∃ r, canOpenPosition rmLiveW "NEW" 1000 "sa" = .ok (.reject r) ∧
      violAt rmLiveW 1000 "sa" r = true ∧
      ∀ r', violAt rmLiveW 1000 "sa" r' = true → ladderIdx r ≤ ladderIdx r' := by
  refine ⟨rfl, ?_, ?_, ?_⟩
  · norm_num [violAt, rmLiveW, rmLiveWState, rmLiveWPos]
  · norm_num [violAt, rmLiveW, rmLiveWState, rmLiveWPos]
  · exact c3_risk_ladder_ordering rmLiveW "NEW" 1000 "sa" .maxPositions .concentration
      rfl (by norm_num [violAt, rmLiveW, rmLiveWState, rmLiveWPos]) (by norm_num [violAt, rmLiveW, rmLiveWState, rmLiveWPos]) (by decide)

/-! ## Association-list lemmas -/

theorem alookup_cons (x : String × α) (xs : List (String × α)) (n : String) :
    alookup n (x :: xs) = if x.1 == n then some x.2 else alookup n xs := by
  simp only [alookup, List.find?_cons]
  cases h : (x.1 == n) <;> simp [h]

theorem aupdate_cons (k : String) (v : α) (x : String × α) (xs : List (String × α)) :
    aupdate k v (x :: xs) = (if x.1 == k then (k, v) else x) :: aupdate k v xs := rfl

theorem alookup_aupdate (k : String) (v : α) (l : List (String × α)) (n : String) :
    alookup n (aupdate k v l) =
      if n = k then (alookup k l).map (fun _ => v) else alookup n l := by
  induction l with
  | nil => by_cases hn : n = k <;> simp [alookup, aupdate, hn]
  | cons p t ih =>
    rw [aupdate_cons]
    by_cases hp : p.1 = k
    · by_cases hn : n = k
      · subst hn
        simp [alookup_cons, hp, ih, beq_iff_eq]
      · have h1 : (k == n) = false := beq_eq_false_iff_ne.mpr (fun h => hn h.symm)
        have h2 : (p.1 == n) = false :=
          beq_eq_false_iff_ne.mpr (by rw [hp]; exact fun h => hn h.symm)
        rw [if_pos (beq_iff_eq.mpr hp)]
        simp [alookup_cons, ih, h1, h2, hn]
    · have hpb : (p.1 == k) = false := beq_eq_false_iff_ne.mpr hp
      rw [if_neg (by simp [hpb])]
      by_cases hn : n = k
      · subst hn
        simp [alookup_cons, hpb, ih]
      · simp [alookup_cons, ih, hn]

/-- Updating a pair state without touching its position field leaves every
pair's position projection unchanged. -/
theorem pairPosition_aupdate_same (st : List (String × PairState)) (k : String)
    (v : PairState)
    (hv : ∀ w, alookup k st = some w → v.position = w.position) (n : String) :
    (alookup n (aupdate k v st)).map (fun ps => ps.position) =
      (alookup n st).map (fun ps => ps.position) := by
  rw [alookup_aupdate]
  by_cases hn : n = k
  · subst hn
    cases hw : alookup n st with
    | none => simp
    | some w => simp [hv w hw]
  · simp [hn]

/-! ## C6 — StatArb position state machine -/

/-- `analyze_pair` never writes the position field. -/
theorem analyzePair_position (O : StatArbOracles) (cfg : StatArbCfg)
    (st : StatArbState) (pair : PairConfig) (a b : List ℚ) (n : String) :
    pairPosition (analyzePair O cfg st pair a b).2 n = pairPosition st n := by
  simp only [analyzePair, pairPosition]
  split_ifs <;>
    · apply pairPosition_aupdate_same
      intro w hw
      simp [hw]

/-- One pair step of `generate_signals` never writes the position field. -/
theorem statArbStep_position (O : StatArbOracles) (cfg : StatArbCfg)
    (st : StatArbState) (pd : List (String × (List ℚ × List ℚ)))
    (pair : PairConfig) (n : String) :
    pairPosition (statArbStep O cfg st pd pair).2 n = pairPosition st n := by
  unfold statArbStep
  cases alookup pair.name pd with
  | none => rfl
  | some v =>
    simp only []
    split_ifs <;> exact analyzePair_position O cfg st pair v.1 v.2 n

/-- The pair fold of `generate_signals` never writes the position field. -/
theorem statArbFold_position (O : StatArbOracles) (cfg : StatArbCfg)
    (pairs : List PairConfig) (pd : List (String × (List ℚ × List ℚ)))
    (acc : List TradeSignal × StatArbState) (n : String) :
    pairPosition (pairs.foldl (fun acc pair =>
      let step := statArbStep O cfg acc.2 pd pair
      (acc.1 ++ step.1, step.2)) acc).2 n = pairPosition acc.2 n := by
  induction pairs generalizing acc with
  | nil => rfl
  | cons p t ih =>
    simp only [List.foldl_cons]
    rw [ih]
    exact statArbStep_position O cfg acc.2 pd p n

/-- `generate_signals` never writes the position field. -/
theorem statArbGenerate_position (O : StatArbOracles) (cfg : StatArbCfg)
    (st : StatArbState) (pd : List (String × (List ℚ × List ℚ))) (n : String) :
    pairPosition (statArbGenerate O cfg st pd).2 n = pairPosition st n := by
  unfold statArbGenerate
  split_ifs <;>
    first
    | rfl
    | exact statArbFold_position O cfg st.pairs pd ([], st) n

/-- A failed execution callback leaves the strategy state unchanged. -/
theorem statArbOnTradeExecuted_failure (st : StatArbState) (g : TradeSignal) :
    statArbOnTradeExecuted st g false = st := by
  unfold statArbOnTradeExecuted
  cases g.metadata.pair with
  | none => rfl
  | some name =>
    simp only []
    cases alookup name st.pair_states with
    | none => rfl
    | some ps => simp

/-- Either `on_trade_executed` leaves a pair's position unchanged, or the call
was a confirmed success of the documented shape: a BUY installing its metadata
target, or a non-hedge CLOSE resetting to NONE. -/
theorem statArbOnTradeExecuted_position (st : StatArbState) (g : TradeSignal)
    (s : Bool) (n : String) :
    pairPosition (statArbOnTradeExecuted st g s) n = pairPosition st n ∨
    (s = true ∧ g.metadata.pair = some n ∧
      ((g.signal = .BUY ∧ ∃ t, g.metadata.target = some t ∧
          (t = "LONG_A" ∨ t = "LONG_B") ∧
          pairPosition (statArbOnTradeExecuted st g s) n = some t) ∨
       (g.signal = .CLOSE ∧ g.metadata.role ≠ some "hedge" ∧
          pairPosition (statArbOnTradeExecuted st g s) n = some "NONE"))) := by
  unfold statArbOnTradeExecuted
  cases hp : g.metadata.pair with
  | none => exact Or.inl rfl
  | some name =>
    simp only []
    cases hl : alookup name st.pair_states with
    | none => exact Or.inl rfl
    | some ps =>
      simp only []
      by_cases hbuy : g.signal = .BUY ∧ s = true
      · rw [if_pos hbuy]
        cases ht : g.metadata.target with
        | none => exact Or.inl rfl
        | some t =>
          simp only []
          by_cases htv : t = "LONG_A" ∨ t = "LONG_B"
          · rw [if_pos htv]
            by_cases hnn : n = name
            · subst hnn
              refine Or.inr ⟨hbuy.2, rfl, Or.inl ⟨hbuy.1, t, rfl, htv, ?_⟩⟩
              unfold pairPosition
              rw [alookup_aupdate]
              simp [hl]
            · refine Or.inl ?_
              unfold pairPosition
              rw [alookup_aupdate]
              simp [hnn]
          · rw [if_neg htv]
            exact Or.inl rfl
      · rw [if_neg hbuy]
        by_cases hclose : g.signal = .CLOSE ∧ s = true
        · rw [if_pos hclose]
          by_cases hrole : g.metadata.role = some "hedge"
          · rw [if_neg (by simp [hrole])]
            exact Or.inl rfl
          · rw [if_pos hrole]
            by_cases hnn : n = name
            · subst hnn
              refine Or.inr ⟨hclose.2, rfl, Or.inr ⟨hclose.1, hrole, ?_⟩⟩
              unfold pairPosition
              rw [alookup_aupdate]
              simp [hl]
            · refine Or.inl ?_
              unfold pairPosition
              rw [alookup_aupdate]
              simp [hnn]
        · rw [if_neg hclose]
          exact Or.inl rfl

/-- C6: StatArb state-machine safety.  (i) `generate_signals` never mutates a
pair's position state; (ii) `on_trade_executed` with `success = False` leaves
the whole strategy state unchanged; (iii) a position change only ever comes
from a `success = True` callback, either a BUY installing its metadata
`target_position` (LONG_A or LONG_B) or a non-hedge CLOSE resetting the pair
to NONE — and since the position is one string-valued field, a pair never
holds two states at once; (iv) consequently a flat pair that emits an entry
signal which is never confirmed successful still has `position = "NONE"`
after the generation step and any number of failed callbacks. -/
theorem c6_statarb_state_machine_safety :
    (∀ (O : StatArbOracles) (cfg : StatArbCfg) (st : StatArbState) pd (n : String),
      pairPosition (statArbGenerate O cfg st pd).2 n = pairPosition st n) ∧
    (∀ (st : StatArbState) (g : TradeSignal), statArbOnTradeExecuted st g false = st) ∧
    (∀ (st : StatArbState) (g : TradeSignal) (s : Bool) (n : String),
      pairPosition (statArbOnTradeExecuted st g s) n = pairPosition st n ∨
      (s = true ∧ g.metadata.pair = some n ∧
        ((g.signal = .BUY ∧ ∃ t, g.metadata.target = some t ∧
            (t = "LONG_A" ∨ t = "LONG_B") ∧
            pairPosition (statArbOnTradeExecuted st g s) n = some t) ∨
         (g.signal = .CLOSE ∧ g.metadata.role ≠ some "hedge" ∧
            pairPosition (statArbOnTradeExecuted st g s) n = some "NONE")))) ∧
    (∀ (O : StatArbOracles) (cfg : StatArbCfg) (st : StatArbState) pd
        (fails : List TradeSignal) (n : String),
      pairPosition st n = some "NONE" →
      pairPosition (fails.foldl (fun s g => statArbOnTradeExecuted s g false)
        (statArbGenerate O cfg st pd).2) n = some "NONE") := by
  have hid : ∀ (fails : List TradeSignal) (x : StatArbState),
      fails.foldl (fun s g => statArbOnTradeExecuted s g false) x = x := by
    intro fails
    induction fails with
    | nil => intro x; rfl
    | cons g t ih =>
      intro x
      rw [List.foldl_cons, statArbOnTradeExecuted_failure x g]
      exact ih x
  refine ⟨statArbGenerate_position, statArbOnTradeExecuted_failure,
    statArbOnTradeExecuted_position, ?_⟩
  intro O cfg st pd fails n hflat
  rw [hid, statArbGenerate_position]
  exact hflat

/-- Witness for C6: a fresh flat pair stays flat through a generation step and
a failed entry callback. -/
theorem c6_statarb_state_machine_safety_witness :
    pairPosition stW6 "P" = some "NONE" ∧
    pairPosition ([sigW6].foldl
      (fun s g => statArbOnTradeExecuted s g false)
      (statArbGenerate OW cfgW stW6 pdW).2) "P" = some "NONE" :=
  ⟨rfl, c6_statarb_state_machine_safety.2.2.2 OW cfgW stW6 pdW _ "P" rfl⟩

/-! ## C7 — hedge-ratio recalculation cadence -/

/-- C7 as stated is refuted by the code: on the first call for a pair (a
recheck by definition), with a stale cached `beta = 5` and two-bar series
(whose OLS slope is 1, and which make `test_cointegration` refuse with
`(False, 1.0)`), `analyze_pair` leaves `beta = 5` — it does **not** refit the
hedge ratio on this recheck, because the refit only happens when the recheck
confirms cointegration. -/
theorem c7_hedge_ratio_counterexample :
    shouldRecalcCoint cfgW stW7 "P" (min aW.length bW.length) = true ∧
    calculateHedgeRatio aW bW = 1 ∧
    (analyzePair OW cfgW stW7 pairW aW bW).1.beta = 5 ∧
    (analyzePair OW cfgW stW7 pairW aW bW).1.beta ≠ calculateHedgeRatio aW bW := by
  have h1 : shouldRecalcCoint cfgW stW7 "P" (min aW.length bW.length) = true := by
    simp [shouldRecalcCoint, cfgW, stW7, aW, bW, alookup]
  have h2 : calculateHedgeRatio aW bW = 1 := by
    simp [calculateHedgeRatio, aW, bW]
    norm_num
  have h3 : (analyzePair OW cfgW stW7 pairW aW bW).1.beta = 5 := by
    simp only [analyzePair, pairW, h1]
    norm_num [testCointegration, aW, bW, stW7, alookup]
  exact ⟨h1, h2, h3, by rw [h3, h2]; norm_num⟩

/-- C7 (amended): `analyze_pair` refits the hedge ratio by OLS only on a
cointegration recheck that confirms cointegration; on a recheck that fails the
test, and between rechecks, `beta` is left at its cached value; `current_z` is
recomputed on every call for which the (possibly cached) cointegration flag is
true and the rolling Z-series is nonempty and not all-NaN, and is left
unchanged on calls where the flag is false. -/
theorem c7_hedge_ratio_cadence (O : StatArbOracles) (cfg : StatArbCfg)
    (st : StatArbState) (pair : PairConfig) (a b : List ℚ) :
    (shouldRecalcCoint cfg st pair.name (min a.length b.length) = true →
      (testCointegration O cfg a b).1 = true →
      (analyzePair O cfg st pair a b).1.beta = calculateHedgeRatio a b) ∧
    (shouldRecalcCoint cfg st pair.name (min a.length b.length) = true →
      (testCointegration O cfg a b).1 = false →
      (analyzePair O cfg st pair a b).1.beta =
        ((alookup pair.name st.pair_states).getD {}).beta ∧
      (analyzePair O cfg st pair a b).1.current_z =
        ((alookup pair.name st.pair_states).getD {}).current_z) ∧
    (shouldRecalcCoint cfg st pair.name (min a.length b.length) = false →
      (analyzePair O cfg st pair a b).1.beta =
        ((alookup pair.name st.pair_states).getD {}).beta) ∧
    ((analyzePair O cfg st pair a b).1.is_cointegrated = true →
      ∀ zs, zs = calculateZScore O cfg
          (calculateSpread a b (analyzePair O cfg st pair a b).1.beta) →
        zs.isEmpty = false → zs.all Option.isNone = false →
        (analyzePair O cfg st pair a b).1.current_z = lastO zs) ∧
    ((analyzePair O cfg st pair a b).1.is_cointegrated = false →
      (analyzePair O cfg st pair a b).1.current_z =
        ((alookup pair.name st.pair_states).getD {}).current_z) := by
  refine ⟨?_, ?_, ?_, ?_, ?_⟩
  · intro hrec htc
    simp only [analyzePair, hrec, if_true, htc]
    split_ifs <;> simp_all
  · intro hrec htc
    simp only [analyzePair, hrec, if_true, htc]
    split_ifs <;> simp_all
  · intro hrec
    simp only [analyzePair, hrec, Bool.false_eq_true, if_false]
    split_ifs <;> simp_all
  · intro hcoint zs hzs hne hnn
    by_cases hrec : shouldRecalcCoint cfg st pair.name (min a.length b.length) = true
    · by_cases htc : (testCointegration O cfg a b).1 = true
      · simp only [analyzePair, hrec, if_true, htc] at hcoint hzs ⊢
        split_ifs at hzs ⊢ <;> simp_all
      · simp only [analyzePair, hrec, if_true, htc] at hcoint hzs ⊢
        split_ifs at hzs ⊢ <;> simp_all
    · simp only [analyzePair, hrec, Bool.false_eq_true, if_false] at hcoint hzs ⊢
      split_ifs at hzs ⊢ <;> simp_all
  · intro hcoint
    by_cases hrec : shouldRecalcCoint cfg st pair.name (min a.length b.length) = true
    · by_cases htc : (testCointegration O cfg a b).1 = true
      · simp only [analyzePair, hrec, if_true, htc] at hcoint ⊢
        split_ifs at hcoint ⊢ <;> simp_all
      · simp only [analyzePair, hrec, if_true, htc] at hcoint ⊢
        split_ifs at hcoint ⊢ <;> simp_all
    · simp only [analyzePair, hrec, Bool.false_eq_true, if_false] at hcoint ⊢
      split_ifs at hcoint ⊢ <;> simp_all

/-- Witness for C7 (amended), at the counterexample's own input: a failed
recheck leaves both the hedge ratio and the Z-score untouched. -/
theorem c7_hedge_ratio_cadence_witness :
    shouldRecalcCoint cfgW stW7 "P" (min aW.length bW.length) = true ∧
    (testCointegration OW cfgW aW bW).1 = false ∧
    ((analyzePair OW cfgW stW7 pairW aW bW).1.beta =
        ((alookup "P" stW7.pair_states).getD {}).beta ∧
      (analyzePair OW cfgW stW7 pairW aW bW).1.current_z =
        ((alookup "P" stW7.pair_states).getD {}).current_z) := by
  refine ⟨?_, ?_, ?_⟩
  · simp [shouldRecalcCoint, cfgW, stW7, aW, bW, alookup]
  · simp [testCointegration, aW, bW]
  · exact (c7_hedge_ratio_cadence OW cfgW stW7 pairW aW bW).2.1
      (by simp [shouldRecalcCoint, cfgW, stW7, aW, bW, alookup])
      (by simp [testCointegration, aW, bW])

/-! ## C5 — risk rejection handling -/

/-- C5 as stated is refuted by the code: here a BUY signal is rejected by the
risk check (position cap reached), the engine drops it with the state exactly
unchanged and the run continues — but the strategy is **not** notified:
`on_trade_executed` is never called (the callback counter stays 0, though any
call, success or failure, would have incremented it). -/
theorem c5_risk_rejection_counterexample :
    canOpenPosition stC5.rm "NEW" (100 * (1 + stC5.slippage_rate) * 1) "" =
      .ok (.reject .maxPositions) ∧
    executeBuy countStrategy stC5 3 sigC5 100 = .ok stC5 ∧
    stC5.strat = 0 ∧
    countStrategy.onTradeExecuted stC5.strat sigC5 false ≠ stC5.strat := by
  refine ⟨?_, ?_, rfl, by simp [countStrategy, stC5]⟩
  · norm_num [canOpenPosition, stC5, rmAtCap, rmAtCapState]
  · norm_num [executeBuy, buySized, buyRiskAndFill, canOpenPosition, alookup, stC5, rmAtCap,
      rmAtCapState, sigC5, heldPos]

/-- C5 (amended): whenever the risk gate inside `_execute_buy` rejects a BUY,
the engine drops the signal and returns with the state exactly unchanged —
cash, positions, trade ledger and the strategy's internal state included, so
`on_trade_executed` is not invoked — and the run continues (no raise).
Moreover any BUY execution that appends no trade leaves the whole state
unchanged, so the only path that invokes the strategy callback is a fill. -/
theorem c5_risk_rejection_drops_silently :
    (∀ {σ κ : Type} (S : Strategy σ κ) (st : EngineState σ) (date : Nat)
        (g : TradeSignal) (price exec_price : ℚ) (q : Int)
        (gross comm net : ℚ) (r : RejectReason),
      canOpenPosition st.rm g.code gross "" = .ok (.reject r) →
      buyRiskAndFill S st date g price exec_price q gross comm net = .ok st) ∧
    (∀ {σ κ : Type} (S : Strategy σ κ) (st : EngineState σ) (date : Nat)
        (g : TradeSignal) (price : ℚ) (st2 : EngineState σ),
      executeBuy S st date g price = .ok st2 → st2.trades = st.trades → st2 = st) := by
  have hgate : ∀ {σ κ : Type} (S : Strategy σ κ) (st : EngineState σ) (date : Nat)
      (g : TradeSignal) (price exec_price : ℚ) (q : Int) (gross comm net : ℚ)
      (st2 : EngineState σ),
      buyRiskAndFill S st date g price exec_price q gross comm net = .ok st2 →
      st2.trades = st.trades → st2 = st := by
    intro σ κ S st date g price exec_price q gross comm net st2 hok htr
    unfold buyRiskAndFill at hok
    cases hco : canOpenPosition st.rm g.code gross "" with
    | error e => rw [hco] at hok; exact absurd hok (by simp)
    | ok res =>
      rw [hco] at hok
      cases res with
      | reject r => exact (Except.ok.inj hok).symm
      | accept =>
        exfalso
        have hb := (Except.ok.inj hok)
        rw [← hb] at htr
        simp only [buyFill] at htr
        have := congrArg List.length htr
        simp at this
  have hsized : ∀ {σ κ : Type} (S : Strategy σ κ) (st : EngineState σ) (date : Nat)
      (g : TradeSignal) (price ep : ℚ) (q : Int) (st2 : EngineState σ),
      buySized S st date g price ep q = .ok st2 → st2.trades = st.trades → st2 = st := by
    intro σ κ S st date g price ep q st2 hok htr
    simp only [buySized] at hok
    split_ifs at hok <;>
      first
      | exact (Except.ok.inj hok).symm
      | exact hgate _ _ _ _ _ _ _ _ _ _ _ hok htr
  constructor
  · intro σ κ S st date g price exec_price q gross comm net r hrej
    unfold buyRiskAndFill
    rw [hrej]
  · intro σ κ S st date g price st2 hok htr
    simp only [executeBuy] at hok
    split_ifs at hok <;>
      first
      | exact (Except.ok.inj hok).symm
      | exact hsized _ _ _ _ _ _ _ _ hok htr

/-- Witness for C5 (amended): the concrete rejected BUY of the counterexample
input is dropped with the state unchanged. -/
theorem c5_risk_rejection_drops_silently_witness :
    canOpenPosition stC5.rm "NEW" ((1001 : ℚ) / 10) "" = .ok (.reject .maxPositions) ∧
    buyRiskAndFill countStrategy stC5 3 sigC5 100 (1001 / 10) 1 (1001 / 10)
      (1001 / 10 * (15 / 100000)) (1001 / 10 + 1001 / 10 * (15 / 100000)) = .ok stC5 := by
  have h : canOpenPosition stC5.rm "NEW" ((1001 : ℚ) / 10) "" = .ok (.reject .maxPositions) := by
    norm_num [canOpenPosition, stC5, rmAtCap, rmAtCapState]
  have hsig : sigC5.code = "NEW" := rfl
  exact ⟨h, c5_risk_rejection_drops_silently.1 countStrategy stC5 3 sigC5 100 (1001 / 10) 1
    (1001 / 10) (1001 / 10 * (15 / 100000)) (1001 / 10 + 1001 / 10 * (15 / 100000))
    .maxPositions (hsig ▸ h)⟩

/-! ## C8 — scenario D trade arithmetic -/

/-- C8 is broken by the same slip as C2: at scenario D's exact input (fresh
10,000,000 capital, BUY of quantity 10 at price 1000, commission 0.00015,
slippage 0.001), the full order cost fits in cash, yet the buy never executes:
the backtest-mode risk gate raises `UnboundLocalError` before any fill, so no
cash is debited and no position is opened — against the claim, which has this
BUY accepted and the cash debited by `10×1000×(1+slippage) + commission`. -/
theorem c8_scenario_d_buy_raises :
    (1000 : ℚ) * (1 + stD.slippage_rate) * 10 +
      1000 * (1 + stD.slippage_rate) * 10 * stD.commission_rate ≤ stD.cash ∧
    executeBuy trivialStrategy stD 1 sigD 1000 = .error stD := by
  constructor
  · norm_num [stD]
  · norm_num [executeBuy, buySized, buyRiskAndFill, canOpenPosition, alookup, stD, rmBacktest, sigD]

/-! ## C4 — equity identity -/

theorem executeSell_equity_history (S : Strategy σ κ) (st : EngineState σ)
    (d : Nat) (g : TradeSignal) (p : ℚ) :
    (executeSell S st d g p).equity_history = st.equity_history := by
  unfold executeSell
  cases alookup g.code st.positions <;> rfl

theorem updatePositions_equity_history (st : EngineState σ)
    (dp : List (String × ℚ)) :
    (updatePositions st dp).equity_history = st.equity_history := rfl

theorem checkStopLosses_equity_history (S : Strategy σ κ) (st : EngineState σ)
    (d : Nat) (dp : List (String × ℚ)) :
    (checkStopLosses S st d dp).equity_history = st.equity_history := by
  unfold checkStopLosses
  generalize st.positions.filter (stopTriggered st dp) = l
  induction l generalizing st with
  | nil => rfl
  | cons c t ih =>
    rw [List.foldl_cons]
    rw [ih (executeSell S st d (stopCloseSignal c) ((alookup c.1 dp).getD 0)),
      executeSell_equity_history]

theorem buyRiskAndFill_equity_history (S : Strategy σ κ) (st : EngineState σ)
    (d : Nat) (g : TradeSignal) (p ep : ℚ) (q : Int) (gross comm net : ℚ) :
    (stateOf (buyRiskAndFill S st d g p ep q gross comm net)).equity_history =
      st.equity_history := by
  cases h : canOpenPosition st.rm g.code gross "" with
  | error e => simp [buyRiskAndFill, stateOf, h]
  | ok r =>
    cases r with
    | accept => simp [buyRiskAndFill, stateOf, h, buyFill]
    | reject rr => simp [buyRiskAndFill, stateOf, h]

theorem buySized_equity_history (S : Strategy σ κ) (st : EngineState σ)
    (d : Nat) (g : TradeSignal) (p ep : ℚ) (q : Int) :
    (stateOf (buySized S st d g p ep q)).equity_history = st.equity_history := by
  simp only [buySized]
  split_ifs <;>
    first
    | rfl
    | apply buyRiskAndFill_equity_history

theorem executeBuy_equity_history (S : Strategy σ κ) (st : EngineState σ)
    (d : Nat) (g : TradeSignal) (p : ℚ) :
    (stateOf (executeBuy S st d g p)).equity_history = st.equity_history := by
  simp only [executeBuy]
  split_ifs <;>
    first
    | rfl
    | apply buySized_equity_history

theorem executeSignal_equity_history (S : Strategy σ κ) (st : EngineState σ)
    (d : Nat) (dp : List (String × ℚ)) (g : TradeSignal) :
    (stateOf (executeSignal S st d dp g)).equity_history = st.equity_history := by
  simp only [executeSignal]
  split_ifs
  · rfl
  · cases g.signal
    · exact executeBuy_equity_history S st d g (effectivePrice g dp)
    · simp only [stateOf]; exact executeSell_equity_history S st d g (effectivePrice g dp)
    · rfl
    · simp only [stateOf]; exact executeSell_equity_history S st d g (effectivePrice g dp)

theorem processSignals_equity_history (S : Strategy σ κ) (gs : List TradeSignal)
    (st : EngineState σ) (d : Nat) (dp : List (String × ℚ)) :
    (stateOf (processSignals S st d dp gs)).equity_history = st.equity_history := by
  induction gs generalizing st with
  | nil => rfl
  | cons g t ih =>
    simp only [processSignals]
    cases h : executeSignal S st d dp g with
    | error e =>
      have := executeSignal_equity_history S st d dp g
      rw [h] at this
      simpa [stateOf] using this
    | ok st2 =>
      have := executeSignal_equity_history S st d dp g
      rw [h] at this
      simp only [stateOf] at this
      rw [ih st2, this]

theorem afterSignalsState_equity_history (S : Strategy σ κ) (st : EngineState σ)
    (date : Nat) (dp : List (String × ℚ)) (data : PriceData) :
    (afterSignalsState S st date dp data).1.equity_history = st.equity_history := by
  simp only [afterSignalsState]
  rw [checkStopLosses_equity_history, updatePositions_equity_history]

/-- C4: every record the day loop appends to `equity_history` satisfies the
equity identity — the recorded equity equals the recorded cash plus the sum
over open positions of quantity times current price (that day's close where
available), with the recorded cash, positions-value and position count taken
from the state at the moment of recording.  A day aborted by a raise appends
no record at all. -/
theorem c4_equity_identity (S : Strategy σ κ) (st : EngineState σ) (date : Nat)
    (dayPrices : List (String × ℚ)) (data : PriceData) :
    match simulateDay S st date dayPrices data with
    | .ok st2 =>
      ∃ r, st2.equity_history = st.equity_history ++ [r] ∧
        r.cash = st2.cash ∧
        r.equity = st2.cash + positionsValue st2.positions dayPrices ∧
        r.positions_value = r.equity - r.cash ∧
        r.positions_count = st2.positions.length ∧ r.date = date
    | .error e => e.equity_history = st.equity_history := by
  have hpre := afterSignalsState_equity_history S st date dayPrices data
  simp only [simulateDay]
  cases hps : processSignals S (afterSignalsState S st date dayPrices data).1 date dayPrices
      (afterSignalsState S st date dayPrices data).2 with
  | error e =>
    have := processSignals_equity_history S (afterSignalsState S st date dayPrices data).2
      (afterSignalsState S st date dayPrices data).1 date dayPrices
    rw [hps] at this
    simp only [stateOf] at this
    simp only []
    rw [this, hpre]
  | ok st4 =>
    have hh4 := processSignals_equity_history S (afterSignalsState S st date dayPrices data).2
      (afterSignalsState S st date dayPrices data).1 date dayPrices
    rw [hps] at hh4
    simp only [stateOf] at hh4
    refine ⟨⟨date, calcEquity st4 dayPrices, st4.cash,
      calcEquity st4 dayPrices - st4.cash, st4.positions.length⟩, ?_, rfl, ?_, rfl, ?_, rfl⟩
    · simp only [recordEquity]
      rw [hh4, hpre]
    · simp [recordEquity, calcEquity]
    · simp [recordEquity]

/-! ## C10 — cash non-negativity -/

theorem pyInt_cast_le {x : ℚ} (hx : 0 ≤ x) : ((pyInt x : Int) : ℚ) ≤ x := by
  unfold pyInt
  rw [if_pos hx]
  exact_mod_cast Int.floor_le x

theorem alookup_mem {α : Type} {l : List (String × α)} {k : String} {v : α}
    (h : alookup k l = some v) : ∃ p ∈ l, p.2 = v := by
  unfold alookup at h
  cases hf : l.find? (fun p => p.1 == k) with
  | none => rw [hf] at h; cases h
  | some p =>
    rw [hf] at h
    exact ⟨p, List.mem_of_find?_eq_some hf, by injection h⟩

theorem alookup_getD_nonneg {dp : List (String × ℚ)} (hdp : ∀ pr ∈ dp, 0 ≤ pr.2)
    (k : String) : 0 ≤ (alookup k dp).getD 0 := by
  cases h : alookup k dp with
  | none => simp
  | some v =>
    obtain ⟨pr, hpr, hv⟩ := alookup_mem h
    simpa [hv] using hdp pr hpr

theorem executeSell_cashWF (S : Strategy σ κ) (st : EngineState σ) (d : Nat)
    (g : TradeSignal) (p : ℚ) (hwf : CashWF st) (hp : 0 ≤ p) :
    st.cash ≤ (executeSell S st d g p).cash ∧ CashWF (executeSell S st d g p) := by
  obtain ⟨hc, hs0, hs1, hr0, hr1, hq⟩ := hwf
  cases hl : alookup g.code st.positions with
  | none =>
    simp only [executeSell, hl]
    exact ⟨le_refl _, hc, hs0, hs1, hr0, hr1, hq⟩
  | some pos =>
    obtain ⟨cp, hcp, hcpv⟩ := alookup_mem hl
    have hqq : (0 : ℚ) ≤ (pos.quantity : ℚ) := by
      have := hq cp hcp
      rw [hcpv] at this
      exact_mod_cast this
    have hep : 0 ≤ p * (1 - st.slippage_rate) := mul_nonneg hp (by linarith)
    have hgross : 0 ≤ p * (1 - st.slippage_rate) * (pos.quantity : ℚ) :=
      mul_nonneg hep hqq
    have hnet : 0 ≤ p * (1 - st.slippage_rate) * (pos.quantity : ℚ) -
        p * (1 - st.slippage_rate) * (pos.quantity : ℚ) * st.commission_rate := by
      nlinarith
    simp only [executeSell, hl]
    refine ⟨by linarith, by simpa using by linarith, hs0, hs1, hr0, hr1, ?_⟩
    intro cp2 hcp2
    exact hq cp2 ((List.eraseP_sublist st.positions).subset hcp2)

theorem buyRiskAndFill_cashWF (S : Strategy σ κ) (st : EngineState σ) (d : Nat)
    (g : TradeSignal) (p ep : ℚ) (q : Int) (gross comm net : ℚ) (hwf : CashWF st)
    (hnet : net ≤ st.cash) (hq : 0 < q) :
    CashWF (stateOf (buyRiskAndFill S st d g p ep q gross comm net)) ∧
    (∀ e, buyRiskAndFill S st d g p ep q gross comm net = .error e → e = st) := by
  obtain ⟨hc, hs0, hs1, hr0, hr1, hqs⟩ := hwf
  cases hco : canOpenPosition st.rm g.code gross "" with
  | error e =>
    simp only [buyRiskAndFill, hco, stateOf]
    exact ⟨⟨hc, hs0, hs1, hr0, hr1, hqs⟩, fun e h => by injection h; simp_all⟩
  | ok res =>
    cases res with
    | reject r =>
      simp only [buyRiskAndFill, hco, stateOf]
      exact ⟨⟨hc, hs0, hs1, hr0, hr1, hqs⟩, fun e h => by cases h⟩
    | accept =>
      simp only [buyRiskAndFill, hco, stateOf, buyFill]
      refine ⟨⟨by simpa using by linarith, hs0, hs1, hr0, hr1, ?_⟩, fun e h => by cases h⟩
      intro cp2 hcp2
      rcases List.mem_append.mp hcp2 with hin | hnew
      · exact hqs cp2 hin
      · have : cp2 = (g.code,
            ({ quantity := q, entry_price := ep, entry_date := d, market := g.market,
               strategy := g.strategy, current_price := ep } : EnginePos)) := by
          simpa using hnew
        rw [this]
        exact le_of_lt hq

/-- The downsized order value including commission fits inside 95 percent of
available cash. -/
theorem downsize_fits (cash ep rate : ℚ) (hc : 0 ≤ cash) (hpos : 0 < ep * (1 + rate)) :
    ((pyInt (cash * (95 / 100) / (ep * (1 + rate))) : Int) : ℚ) * (ep * (1 + rate)) ≤
      95 / 100 * cash := by
  have hx : 0 ≤ cash * (95 / 100) / (ep * (1 + rate)) :=
    div_nonneg (by linarith) (le_of_lt hpos)
  have hle := pyInt_cast_le hx
  have := mul_le_mul_of_nonneg_right hle (le_of_lt hpos)
  calc ((pyInt (cash * (95 / 100) / (ep * (1 + rate))) : Int) : ℚ) * (ep * (1 + rate)) ≤
      cash * (95 / 100) / (ep * (1 + rate)) * (ep * (1 + rate)) := this
    _ = 95 / 100 * cash := by
        field_simp
        ring

theorem buySized_cashWF (S : Strategy σ κ) (st : EngineState σ) (d : Nat)
    (g : TradeSignal) (p ep : ℚ) (q : Int) (hwf : CashWF st) :
    CashWF (stateOf (buySized S st d g p ep q)) ∧
    (∀ e, buySized S st d g p ep q = .error e → e = st) := by
  have hwf2 := hwf
  obtain ⟨hc, hs0, hs1, hr0, hr1, hqs⟩ := hwf2
  simp only [buySized]
  split_ifs with h3 h4 h5
  · exact ⟨hwf, fun e h => by cases h⟩
  · exact ⟨hwf, fun e h => by cases h⟩
  · -- downsize path with positive reduced quantity
    have hqc : (0 : ℚ) < (q : ℚ) := by exact_mod_cast by omega
    have hq2pos : 0 < pyInt (st.cash * (95 / 100) / (ep * (1 + st.commission_rate))) := by
      omega
    have hcast : 0 < ep * (1 + st.commission_rate) := by
      by_contra hle
      push_neg at hle
      nlinarith [mul_nonpos_of_nonpos_of_nonneg hle (le_of_lt hqc)]
    have hfit := downsize_fits st.cash ep st.commission_rate hc hcast
    have hnet2 : ep * ((pyInt (st.cash * (95 / 100) / (ep * (1 + st.commission_rate))) : Int) : ℚ) +
        ep * ((pyInt (st.cash * (95 / 100) / (ep * (1 + st.commission_rate))) : Int) : ℚ) *
          st.commission_rate ≤ st.cash := by
      nlinarith [hfit]
    exact buyRiskAndFill_cashWF S st d g p ep _ _ _ _ hwf hnet2 hq2pos
  · -- full-size path: the order cost does not exceed cash
    have hqpos : 0 < q := by omega
    push_neg at h4
    exact buyRiskAndFill_cashWF S st d g p ep q (ep * (q : ℚ))
      (ep * (q : ℚ) * st.commission_rate)
      (ep * (q : ℚ) + ep * (q : ℚ) * st.commission_rate) hwf h4 hqpos

theorem executeBuy_cashWF (S : Strategy σ κ) (st : EngineState σ) (d : Nat)
    (g : TradeSignal) (p : ℚ) (hwf : CashWF st) :
    CashWF (stateOf (executeBuy S st d g p)) ∧
    (∀ e, executeBuy S st d g p = .error e → e = st) := by
  simp only [executeBuy]
  split_ifs with h1
  · exact ⟨hwf, fun e h => by cases h⟩
  all_goals exact buySized_cashWF S st d g p _ _ hwf

theorem updatePositions_cashWF (st : EngineState σ) (dp : List (String × ℚ))
    (hwf : CashWF st) : CashWF (updatePositions st dp) := by
  obtain ⟨hc, hs0, hs1, hr0, hr1, hqs⟩ := hwf
  refine ⟨hc, hs0, hs1, hr0, hr1, ?_⟩
  intro cp hcp
  simp only [updatePositions, List.mem_map] at hcp
  obtain ⟨a, ha, hfa⟩ := hcp
  have := hqs a ha
  cases h : alookup a.1 dp with
  | none => rw [h] at hfa; rw [← hfa]; exact this
  | some v => rw [h] at hfa; rw [← hfa]; exact this

theorem checkStopLosses_cashWF (S : Strategy σ κ) (st : EngineState σ) (d : Nat)
    (dp : List (String × ℚ)) (hwf : CashWF st) (hdp : ∀ pr ∈ dp, 0 ≤ pr.2) :
    CashWF (checkStopLosses S st d dp) := by
  unfold checkStopLosses
  generalize st.positions.filter (stopTriggered st dp) = l
  induction l generalizing st with
  | nil => exact hwf
  | cons c t ih =>
    rw [List.foldl_cons]
    exact ih _ ((executeSell_cashWF S st d (stopCloseSignal c) _ hwf
      (alookup_getD_nonneg hdp c.1)).2)

theorem executeSignal_cashWF (S : Strategy σ κ) (st : EngineState σ) (d : Nat)
    (dp : List (String × ℚ)) (g : TradeSignal) (hwf : CashWF st) :
    CashWF (stateOf (executeSignal S st d dp g)) := by
  simp only [executeSignal]
  split_ifs with hple
  · exact hwf
  · push_neg at hple
    cases g.signal
    · exact (executeBuy_cashWF S st d g (effectivePrice g dp) hwf).1
    · exact (executeSell_cashWF S st d g (effectivePrice g dp) hwf (le_of_lt hple)).2
    · exact hwf
    · exact (executeSell_cashWF S st d g (effectivePrice g dp) hwf (le_of_lt hple)).2

theorem processSignals_cashWF (S : Strategy σ κ) (gs : List TradeSignal)
    (st : EngineState σ) (d : Nat) (dp : List (String × ℚ)) (hwf : CashWF st) :
    CashWF (stateOf (processSignals S st d dp gs)) := by
  induction gs generalizing st with
  | nil => exact hwf
  | cons g t ih =>
    simp only [processSignals]
    cases h : executeSignal S st d dp g with
    | error e =>
      have := executeSignal_cashWF S st d dp g hwf
      rw [h] at this
      exact this
    | ok st2 =>
      have := executeSignal_cashWF S st d dp g hwf
      rw [h] at this
      exact ih st2 this

theorem afterSignalsState_cashWF (S : Strategy σ κ) (st : EngineState σ)
    (date : Nat) (dp : List (String × ℚ)) (data : PriceData) (hwf : CashWF st)
    (hdp : ∀ pr ∈ dp, 0 ≤ pr.2) :
    CashWF (afterSignalsState S st date dp data).1 := by
  have h2 := checkStopLosses_cashWF S (updatePositions st dp) date dp
    (updatePositions_cashWF st dp hwf) hdp
  obtain ⟨hc, hs0, hs1, hr0, hr1, hqs⟩ := h2
  exact ⟨hc, hs0, hs1, hr0, hr1, hqs⟩

theorem recordEquity_cashWF (st : EngineState σ) (date : Nat)
    (dp : List (String × ℚ)) (hwf : CashWF st) : CashWF (recordEquity st date dp) := by
  obtain ⟨hc, hs0, hs1, hr0, hr1, hqs⟩ := hwf
  refine ⟨hc, hs0, hs1, hr0, hr1, ?_⟩
  intro cp hcp
  exact hqs cp (by simpa [recordEquity] using hcp)

theorem simulateDay_cashWF (S : Strategy σ κ) (st : EngineState σ) (date : Nat)
    (dp : List (String × ℚ)) (data : PriceData) (hwf : CashWF st)
    (hdp : ∀ pr ∈ dp, 0 ≤ pr.2) :
    CashWF (stateOf (simulateDay S st date dp data)) := by
  have hpre := afterSignalsState_cashWF S st date dp data hwf hdp
  simp only [simulateDay]
  cases hps : processSignals S (afterSignalsState S st date dp data).1 date dp
      (afterSignalsState S st date dp data).2 with
  | error e =>
    have := processSignals_cashWF S (afterSignalsState S st date dp data).2
      (afterSignalsState S st date dp data).1 date dp hpre
    rw [hps] at this
    exact this
  | ok st4 =>
    have := processSignals_cashWF S (afterSignalsState S st date dp data).2
      (afterSignalsState S st date dp data).1 date dp hpre
    rw [hps] at this
    exact recordEquity_cashWF st4 date dp this

theorem lookupBar_mem {bars : Bars} {d : Nat} {v : ℚ} (h : lookupBar bars d = some v) :
    ∃ b ∈ bars, b.2 = v := by
  unfold lookupBar at h
  have hv := List.mem_of_getLast?_eq_some h
  simp only [List.mem_map, List.mem_filter] at hv
  obtain ⟨b, ⟨hb, _⟩, hbv⟩ := hv
  exact ⟨b, hb, hbv⟩

theorem getDayPrices_nonneg {data : PriceData} {d : Nat}
    (hdata : ∀ cb ∈ data, ∀ b ∈ cb.2, 0 ≤ b.2) :
    ∀ pr ∈ getDayPrices data d, 0 ≤ pr.2 := by
  intro pr hpr
  simp only [getDayPrices, List.mem_filterMap] at hpr
  obtain ⟨cb, hcb, hmap⟩ := hpr
  cases hlb : lookupBar cb.2 d with
  | none => rw [hlb] at hmap; cases hmap
  | some v =>
    rw [hlb] at hmap
    obtain ⟨b, hb, hbv⟩ := lookupBar_mem hlb
    have := hdata cb hcb b hb
    injection hmap with hmap
    rw [← hmap]
    simpa [hbv] using this

theorem runDays_cashWF (S : Strategy σ κ) (days : List Nat) (st : EngineState σ)
    (data : PriceData) (hdata : ∀ cb ∈ data, ∀ b ∈ cb.2, 0 ≤ b.2)
    (hwf : CashWF st) : CashWF (stateOf (runDays S st data days)) := by
  induction days generalizing st with
  | nil => exact hwf
  | cons d ds ih =>
    simp only [runDays]
    split_ifs
    · exact ih st hwf
    · cases hsd : simulateDay S st d (getDayPrices data d) data with
      | error e =>
        have := simulateDay_cashWF S st d (getDayPrices data d) data hwf
          (getDayPrices_nonneg hdata)
        rw [hsd] at this
        exact this
      | ok st2 =>
        have := simulateDay_cashWF S st d (getDayPrices data d) data hwf
          (getDayPrices_nonneg hdata)
        rw [hsd] at this
        exact ih st2 this

/-- C10: starting from non-negative cash (with the engine's rates in range and
no short positions), cash stays non-negative through every executed BUY and
SELL and hence across whole runs: a SELL only ever credits cash; a BUY either
leaves the state untouched (skip, risk rejection, or the backtest risk-gate
raise, which aborts before any mutation) or debits at most the available cash,
because an order whose full cost exceeds cash is downsized to the quantity
fitting within 95 percent of cash including commission and skipped when that
quantity is not positive; and the whole day loop and run loop preserve the
invariant. -/
theorem c10_cash_nonnegativity :
    (∀ {σ κ : Type} (S : Strategy σ κ) (st : EngineState σ) (d : Nat)
        (g : TradeSignal) (p : ℚ), CashWF st → 0 ≤ p →
      st.cash ≤ (executeSell S st d g p).cash ∧ CashWF (executeSell S st d g p)) ∧
    (∀ {σ κ : Type} (S : Strategy σ κ) (st : EngineState σ) (d : Nat)
        (g : TradeSignal) (p : ℚ), CashWF st →
      CashWF (stateOf (executeBuy S st d g p)) ∧
      (∀ e, executeBuy S st d g p = .error e → e = st)) ∧
    (∀ cash ep rate : ℚ, 0 ≤ cash → 0 < ep * (1 + rate) →
      ((pyInt (cash * (95 / 100) / (ep * (1 + rate))) : Int) : ℚ) * (ep * (1 + rate)) ≤
        95 / 100 * cash) ∧
    (∀ {σ κ : Type} (S : Strategy σ κ) (st : EngineState σ) (date : Nat)
        (dp : List (String × ℚ)) (data : PriceData), CashWF st →
      (∀ pr ∈ dp, 0 ≤ pr.2) → CashWF (stateOf (simulateDay S st date dp data))) ∧
    (∀ {σ κ : Type} (S : Strategy σ κ) (st : EngineState σ) (data : PriceData)
        (days : List Nat), (∀ cb ∈ data, ∀ b ∈ cb.2, 0 ≤ b.2) → CashWF st →
      CashWF (stateOf (runDays S st data days))) := by
  refine ⟨?_, ?_, ?_, ?_, ?_⟩
  · intro σ κ S st d g p hwf hp
    exact executeSell_cashWF S st d g p hwf hp
  · intro σ κ S st d g p hwf
    exact executeBuy_cashWF S st d g p hwf
  · intro cash ep rate hc hpos
    exact downsize_fits cash ep rate hc hpos
  · intro σ κ S st date dp data hwf hdp
    exact simulateDay_cashWF S st date dp data hwf hdp
  · intro σ κ S st data days hdata hwf
    exact runDays_cashWF S days st data hdata hwf

/-- Witness for C10: a one-day run on a small dataset from the scenario-D
starting state keeps the invariant, cash included. -/
theorem c10_cash_nonnegativity_witness :
    CashWF (stateOf (runDays trivialStrategy stD dataW [1])) :=
  c10_cash_nonnegativity.2.2.2.2 trivialStrategy stD dataW [1]
    (by norm_num [dataW]) (by norm_num [CashWF, stD])

/-! ## C9 — day-loop idempotence -/

/-- C9 as stated is refuted by the code: a strategy that conforms to the
plugin protocol (its state changes only inside `on_trade_executed`) sells X on
its first generation call and Y once a fill has been confirmed; running
`_simulate_day` a second time on the same date with the same price data then
appends a second trade (the sale of Y), because the first run's success
callback changed what the strategy emits. -/
theorem c9_idempotence_counterexample :
    (simulateDay flipStrategy st9 5 dp9 data9).isOk = true ∧
    (stateOf (simulateDay flipStrategy st9 5 dp9 data9)).trades.length = 1 ∧
    (simulateDay flipStrategy (stateOf (simulateDay flipStrategy st9 5 dp9 data9))
        5 dp9 data9).isOk = true ∧
    (stateOf (simulateDay flipStrategy (stateOf (simulateDay flipStrategy st9 5 dp9 data9))
        5 dp9 data9)).trades.length = 2 := by
  norm_num [simulateDay, afterSignalsState, updatePositions, checkStopLosses,
    stopTriggered, stopCloseSignal, generateStrategySignals, getPricesUntil, sortBarsByDate,
    List.insertionSort, List.orderedInsert, processSignals, executeSignal, effectivePrice,
    executeSell, recordEquity, calcEquity, positionsValue, rmUpdatePrices, rmRemovePosition,
    stateOf, Except.isOk, Except.toBool, Option.some_ne_none, alookup, aremove,
    flipStrategy, st9, posX, posY,
    data9, dp9, rmBacktest, (by decide : ("Z" : String) ≠ "X"),
    (by decide : ("Z" : String) ≠ "Y"), (by decide : ("X" : String) ≠ "Z"),
    (by decide : ("Y" : String) ≠ "Z"), (by decide : ("X" : String) ≠ "Y"),
    (by decide : ("Y" : String) ≠ "X")]

/-! ## C9 — the amended day-loop idempotence

In backtest mode a processed day can only shrink the position dict: BUYs
either reject or raise at the risk gate (the C2 slip), SELLs and CLOSEs erase
their key.  For a strategy whose scheduling, preparation and signal outputs do
not depend on its mutable state (a pure strategy), the second run of the same
day therefore regenerates the same signal list, finds every sell code already
gone and every buy blocked, and appends no trade.  The lemmas below build that
inventory argument. -/

theorem alookup_eq_none_keys (k : String) (l : List (String × α)) :
    alookup k l = none ↔ k ∉ l.map (fun p => p.1) := by
  simp only [alookup, Option.map_eq_none', List.find?_eq_none, List.mem_map,
    beq_iff_eq, not_exists, not_and]

theorem alookup_ne_none_of_mem {l : List (String × α)} {cp : String × α}
    (h : cp ∈ l) : alookup cp.1 l ≠ none := by
  intro hn
  rw [alookup_eq_none_keys] at hn
  exact hn (List.mem_map.mpr ⟨cp, h, rfl⟩)

theorem aremove_of_alookup_none {k : String} {l : List (String × α)}
    (h : alookup k l = none) : aremove k l = l := by
  apply List.eraseP_of_forall_not
  intro a ha hk
  rw [alookup_eq_none_keys] at h
  exact h (List.mem_map.mpr ⟨a, ha, beq_iff_eq.mp hk⟩)

theorem aremove_cons (k : String) (a : String × α) (t : List (String × α)) :
    aremove k (a :: t) = if a.1 == k then t else a :: aremove k t := by
  simp only [aremove, List.eraseP_cons]
  cases h : (a.1 == k) <;> simp [h]

theorem aremove_keys_sublist (k : String) (l : List (String × α)) :
    List.Sublist ((aremove k l).map (fun p => p.1)) (l.map (fun p => p.1)) :=
  List.Sublist.map _ (List.eraseP_sublist l)

theorem alookup_none_of_keys_sublist {x : String} {l1 l2 : List (String × α)}
    (hs : List.Sublist (l1.map (fun p => p.1)) (l2.map (fun p => p.1)))
    (h : alookup x l2 = none) : alookup x l1 = none := by
  rw [alookup_eq_none_keys] at h ⊢
  exact fun hx => h (hs.subset hx)

theorem alookup_none_of_sublist {x : String} {l1 l2 : List (String × α)}
    (hs : List.Sublist l1 l2) (h : alookup x l2 = none) : alookup x l1 = none :=
  alookup_none_of_keys_sublist (List.Sublist.map _ hs) h

theorem alookup_aremove_self {k : String} {l : List (String × α)}
    (hnd : (l.map (fun p => p.1)).Nodup) : alookup k (aremove k l) = none := by
  induction l with
  | nil => rfl
  | cons a t ih =>
    have hnd2 : a.1 ∉ t.map (fun p => p.1) ∧ (t.map (fun p => p.1)).Nodup := by
      simpa [List.nodup_cons] using hnd
    rw [aremove_cons]
    by_cases hk : a.1 = k
    · rw [if_pos (beq_iff_eq.mpr hk)]
      rw [alookup_eq_none_keys]
      intro hmem
      exact hnd2.1 (hk ▸ hmem)
    · rw [if_neg (by simpa using hk)]
      rw [alookup_cons, if_neg (by simpa using hk)]
      exact ih hnd2.2

/-- The structural effect of `_execute_sell` on the state: the sold key is
erased from the position dict (a no-op when it is absent) and the risk
manager's configuration fields are untouched. -/
theorem executeSell_shape (S : Strategy σ κ) (st : EngineState σ) (d : Nat)
    (g : TradeSignal) (p : ℚ) :
    (executeSell S st d g p).positions = aremove g.code st.positions ∧
    (executeSell S st d g p).rm.backtest_mode = st.rm.backtest_mode ∧
    (executeSell S st d g p).rm.stop_loss_pct = st.rm.stop_loss_pct := by
  unfold executeSell
  cases h : alookup g.code st.positions with
  | none => exact ⟨(aremove_of_alookup_none h).symm, rfl, rfl⟩
  | some pos => exact ⟨rfl, rfl, rfl⟩

/-- A SELL for a code that is not held is a no-op. -/
theorem executeSell_none (S : Strategy σ κ) (st : EngineState σ) (d : Nat)
    (g : TradeSignal) (p : ℚ) (h : alookup g.code st.positions = none) :
    executeSell S st d g p = st := by
  unfold executeSell
  rw [h]

theorem canOpenPosition_backtest (rm : RiskManager) (hbt : rm.backtest_mode = true)
    (c : String) (mv : ℚ) (s : String) :
    canOpenPosition rm c mv s =
      if rm.max_positions ≤ rm.state.positions.length then .ok (.reject .maxPositions)
      else .error () := by
  simp [canOpenPosition, hbt]

/-- In backtest mode the risk gate never accepts: the buy either rejects
(position cap) and drops the signal, or raises `UnboundLocalError`; either way
the state at hand is returned untouched. -/
theorem buyRiskAndFill_backtest (S : Strategy σ κ) (st : EngineState σ) (d : Nat)
    (g : TradeSignal) (p ep : ℚ) (q : Int) (ga cm na : ℚ)
    (hbt : st.rm.backtest_mode = true) :
    buyRiskAndFill S st d g p ep q ga cm na = .ok st ∨
    buyRiskAndFill S st d g p ep q ga cm na = .error st := by
  unfold buyRiskAndFill
  rw [canOpenPosition_backtest st.rm hbt]
  by_cases hc : st.rm.max_positions ≤ st.rm.state.positions.length
  · rw [if_pos hc]
    exact Or.inl rfl
  · rw [if_neg hc]
    exact Or.inr rfl

/-- In backtest mode every BUY leaves the state unchanged: it is skipped
(already held, non-positive size), rejected, or it raises. -/
theorem executeBuy_backtest (S : Strategy σ κ) (st : EngineState σ) (d : Nat)
    (g : TradeSignal) (p : ℚ) (hbt : st.rm.backtest_mode = true) :
    executeBuy S st d g p = .ok st ∨ executeBuy S st d g p = .error st := by
  simp only [executeBuy, buySized]
  split_ifs <;>
    first
      | exact Or.inl rfl
      | exact buyRiskAndFill_backtest S st d g p _ _ _ _ _ hbt

/-- The stop-loss closing fold acts on the position dict as a fold of key
erasures, and leaves the risk configuration untouched. -/
theorem foldSell_shape (S : Strategy σ κ) (d : Nat) (dp : List (String × ℚ)) :
    ∀ (l : List (String × EnginePos)) (s : EngineState σ),
      (l.foldl (fun s cp => executeSell S s d (stopCloseSignal cp)
          ((alookup cp.1 dp).getD 0)) s).positions =
        l.foldl (fun ps cp => aremove cp.1 ps) s.positions ∧
      (l.foldl (fun s cp => executeSell S s d (stopCloseSignal cp)
          ((alookup cp.1 dp).getD 0)) s).rm.backtest_mode = s.rm.backtest_mode ∧
      (l.foldl (fun s cp => executeSell S s d (stopCloseSignal cp)
          ((alookup cp.1 dp).getD 0)) s).rm.stop_loss_pct = s.rm.stop_loss_pct := by
  intro l
  induction l with
  | nil => exact fun s => ⟨rfl, rfl, rfl⟩
  | cons c t ih =>
    intro s
    simp only [List.foldl_cons]
    obtain ⟨h1, h2, h3⟩ := ih (executeSell S s d (stopCloseSignal c) ((alookup c.1 dp).getD 0))
    obtain ⟨g1, g2, g3⟩ := executeSell_shape S s d (stopCloseSignal c) ((alookup c.1 dp).getD 0)
    refine ⟨?_, by rw [h2, g2], by rw [h3, g3]⟩
    rw [h1, g1]
    rfl

theorem foldRemove_sublist :
    ∀ (l : List (String × EnginePos)) (ps : List (String × EnginePos)),
      List.Sublist (l.foldl (fun ps cp => aremove cp.1 ps) ps) ps := by
  intro l
  induction l with
  | nil => exact fun ps => List.Sublist.refl ps
  | cons c t ih =>
    intro ps
    simp only [List.foldl_cons]
    exact (ih (aremove c.1 ps)).trans (List.eraseP_sublist ps)

theorem foldRemove_none {x : String} :
    ∀ (l : List (String × EnginePos)) (ps : List (String × EnginePos)),
      alookup x ps = none → alookup x (l.foldl (fun ps cp => aremove cp.1 ps) ps) = none := by
  intro l
  induction l with
  | nil => exact fun ps h => h
  | cons c t ih =>
    intro ps h
    simp only [List.foldl_cons]
    exact ih (aremove c.1 ps) (alookup_none_of_sublist (List.eraseP_sublist ps) h)

theorem foldRemove_key_none {cp : String × EnginePos} :
    ∀ (l : List (String × EnginePos)) (ps : List (String × EnginePos)),
      (ps.map (fun p => p.1)).Nodup → cp ∈ l →
      alookup cp.1 (l.foldl (fun ps cp => aremove cp.1 ps) ps) = none := by
  intro l
  induction l with
  | nil => intro ps _ h; cases h
  | cons c t ih =>
    intro ps hnd hmem
    simp only [List.foldl_cons]
    rcases List.mem_cons.mp hmem with heq | htail
    · subst heq
      exact foldRemove_none t (aremove cp.1 ps) (alookup_aremove_self hnd)
    · exact ih (aremove c.1 ps)
        (List.Nodup.sublist (aremove_keys_sublist c.1 ps) hnd) htail

theorem checkStopLosses_shape (S : Strategy σ κ) (st : EngineState σ) (d : Nat)
    (dp : List (String × ℚ)) :
    (checkStopLosses S st d dp).positions =
      (st.positions.filter (stopTriggered st dp)).foldl
        (fun ps cp => aremove cp.1 ps) st.positions ∧
    (checkStopLosses S st d dp).rm.backtest_mode = st.rm.backtest_mode ∧
    (checkStopLosses S st d dp).rm.stop_loss_pct = st.rm.stop_loss_pct :=
  foldSell_shape S d dp (st.positions.filter (stopTriggered st dp)) st

theorem checkStopLosses_sublist (S : Strategy σ κ) (st : EngineState σ) (d : Nat)
    (dp : List (String × ℚ)) :
    List.Sublist (checkStopLosses S st d dp).positions st.positions := by
  rw [(checkStopLosses_shape S st d dp).1]
  exact foldRemove_sublist _ st.positions

/-- Every position that survives the stop-loss phase was held before it and
was not stop-triggered (a triggered one has its key erased from the dict). -/
theorem checkStopLosses_mem (S : Strategy σ κ) (st : EngineState σ) (d : Nat)
    (dp : List (String × ℚ)) (hnd : (st.positions.map (fun p => p.1)).Nodup)
    {cp : String × EnginePos} (h : cp ∈ (checkStopLosses S st d dp).positions) :
    cp ∈ st.positions ∧ stopTriggered st dp cp = false := by
  have hsub : cp ∈ st.positions := (checkStopLosses_sublist S st d dp).subset h
  refine ⟨hsub, ?_⟩
  by_contra hne
  have htrig : stopTriggered st dp cp = true := by
    cases hb : stopTriggered st dp cp
    · exact absurd hb hne
    · rfl
  have hfil : cp ∈ st.positions.filter (stopTriggered st dp) :=
    List.mem_filter.mpr ⟨hsub, htrig⟩
  have hnone : alookup cp.1 (checkStopLosses S st d dp).positions = none := by
    rw [(checkStopLosses_shape S st d dp).1]
    exact foldRemove_key_none _ st.positions hnd hfil
  exact alookup_ne_none_of_mem h hnone

theorem checkStopLosses_of_no_trigger (S : Strategy σ κ) (st : EngineState σ)
    (d : Nat) (dp : List (String × ℚ))
    (h : st.positions.filter (stopTriggered st dp) = []) :
    checkStopLosses S st d dp = st := by
  unfold checkStopLosses
  rw [h]
  rfl

/-- The stop-loss condition reads the state only through the configured
stop-loss threshold, and the position only through its key and entry price. -/
theorem stopTriggered_congr (st st2 : EngineState σ) (dp : List (String × ℚ))
    (cp cp2 : String × EnginePos)
    (hc : st.rm.stop_loss_pct = st2.rm.stop_loss_pct)
    (hk : cp.1 = cp2.1) (he : cp.2.entry_price = cp2.2.entry_price) :
    stopTriggered st dp cp = stopTriggered st2 dp cp2 := by
  simp only [stopTriggered]
  rw [hk, he, hc]

/-- Updating current prices permutes no keys. -/
theorem updatePositions_keys (st : EngineState σ) (dp : List (String × ℚ)) :
    (updatePositions st dp).positions.map (fun p => p.1) =
      st.positions.map (fun p => p.1) := by
  simp only [updatePositions, List.map_map]
  apply List.map_congr_left
  intro cp _
  cases h : alookup cp.1 dp <;> simp [h]

theorem updatePositions_mem {st : EngineState σ} {dp : List (String × ℚ)}
    {cp : String × EnginePos} (h : cp ∈ (updatePositions st dp).positions) :
    ∃ cp0 ∈ st.positions, cp.1 = cp0.1 ∧ cp.2.entry_price = cp0.2.entry_price := by
  simp only [updatePositions] at h
  obtain ⟨cp0, h0, hf⟩ := List.mem_map.mp h
  refine ⟨cp0, h0, ?_⟩
  cases halk : alookup cp0.1 dp <;> rw [halk] at hf <;> subst hf <;> exact ⟨rfl, rfl⟩

theorem updatePositions_alookup_none (st : EngineState σ) (dp : List (String × ℚ))
    (x : String) (h : alookup x st.positions = none) :
    alookup x (updatePositions st dp).positions = none := by
  rw [alookup_eq_none_keys] at h ⊢
  rw [updatePositions_keys]
  exact h

theorem recordEquity_rm_cfg (st4 : EngineState σ) (d : Nat)
    (dp : List (String × ℚ)) :
    (recordEquity st4 d dp).rm.backtest_mode = st4.rm.backtest_mode ∧
    (recordEquity st4 d dp).rm.stop_loss_pct = st4.rm.stop_loss_pct := by
  simp only [recordEquity]
  split_ifs <;> exact ⟨rfl, rfl⟩

/-- One backtest-mode signal execution either raises with the state at hand,
or returns a state whose position dict is a sublist of the previous one, with
the risk configuration untouched — and after a SELL or CLOSE at a positive
price the sold code is gone from the dict. -/
theorem executeSignal_backtest_step (S : Strategy σ κ) (st : EngineState σ)
    (d : Nat) (dp : List (String × ℚ)) (g : TradeSignal)
    (hbt : st.rm.backtest_mode = true) :
    executeSignal S st d dp g = .error st ∨
    ∃ st2, executeSignal S st d dp g = .ok st2 ∧
      List.Sublist st2.positions st.positions ∧
      st2.rm.backtest_mode = true ∧
      st2.rm.stop_loss_pct = st.rm.stop_loss_pct ∧
      ((g.signal = .SELL ∨ g.signal = .CLOSE) → 0 < effectivePrice g dp →
        (st.positions.map (fun p => p.1)).Nodup →
        alookup g.code st2.positions = none) := by
  simp only [executeSignal]
  by_cases hp : effectivePrice g dp ≤ 0
  · rw [if_pos hp]
    exact Or.inr ⟨st, rfl, List.Sublist.refl _, hbt, rfl,
      fun _ h0 _ => absurd h0 (not_lt.mpr hp)⟩
  · rw [if_neg hp]
    cases hg : g.signal with
    | BUY =>
      rcases executeBuy_backtest S st d g (effectivePrice g dp) hbt with hok | herr
      · exact Or.inr ⟨st, hok, List.Sublist.refl _, hbt, rfl,
          fun hs _ _ => by rcases hs with h | h <;> cases h⟩
      · exact Or.inl herr
    | SELL =>
      obtain ⟨g1, g2, g3⟩ := executeSell_shape S st d g (effectivePrice g dp)
      refine Or.inr ⟨executeSell S st d g (effectivePrice g dp), rfl, ?_, ?_, g3, ?_⟩
      · rw [g1]; exact List.eraseP_sublist _
      · rw [g2]; exact hbt
      · intro _ _ hnd
        rw [g1]
        exact alookup_aremove_self hnd
    | HOLD =>
      exact Or.inr ⟨st, rfl, List.Sublist.refl _, hbt, rfl,
        fun hs _ _ => by rcases hs with h | h <;> cases h⟩
    | CLOSE =>
      obtain ⟨g1, g2, g3⟩ := executeSell_shape S st d g (effectivePrice g dp)
      refine Or.inr ⟨executeSell S st d g (effectivePrice g dp), rfl, ?_, ?_, g3, ?_⟩
      · rw [g1]; exact List.eraseP_sublist _
      · rw [g2]; exact hbt
      · intro _ _ hnd
        rw [g1]
        exact alookup_aremove_self hnd

/-- Running a backtest day's signal list: on normal return, the surviving
position dict is a sublist of the entering one, the risk configuration is
unchanged, and the code of every SELL or CLOSE signal executed at a positive
price has been erased from the dict. -/
theorem processSignals_run1 (S : Strategy σ κ) (d : Nat) (dp : List (String × ℚ)) :
    ∀ (L : List TradeSignal) (st c : EngineState σ),
      st.rm.backtest_mode = true →
      (st.positions.map (fun p => p.1)).Nodup →
      processSignals S st d dp L = .ok c →
      List.Sublist c.positions st.positions ∧
      c.rm.backtest_mode = true ∧
      c.rm.stop_loss_pct = st.rm.stop_loss_pct ∧
      ∀ g ∈ L, (g.signal = .SELL ∨ g.signal = .CLOSE) → 0 < effectivePrice g dp →
        alookup g.code c.positions = none := by
  intro L
  induction L with
  | nil =>
    intro st c hbt hnd h
    cases h
    exact ⟨List.Sublist.refl _, hbt, rfl, by simp⟩
  | cons g L ih =>
    intro st c hbt hnd h
    simp only [processSignals] at h
    rcases executeSignal_backtest_step S st d dp g hbt with herr | ⟨st2, hok, hsub, hbt2, hstp2, hsell⟩
    · rw [herr] at h
      cases h
    · rw [hok] at h
      have hnd2 : (st2.positions.map (fun p => p.1)).Nodup :=
        List.Nodup.sublist (List.Sublist.map _ hsub) hnd
      obtain ⟨ihsub, ihbt, ihstp, ihsell⟩ := ih st2 c hbt2 hnd2 h
      refine ⟨ihsub.trans hsub, ihbt, ihstp.trans hstp2, ?_⟩
      intro g2 hg2 hsig hpr
      rcases List.mem_cons.mp hg2 with heq | htail
      · subst heq
        exact alookup_none_of_sublist ihsub (hsell hsig hpr hnd)
      · exact ihsell g2 htail hsig hpr

/-- A backtest-mode signal execution from a state that holds none of the
signal's sell codes leaves the state exactly as it was (normally or by
raising). -/
theorem executeSignal_backtest_fixed (S : Strategy σ κ) (b : EngineState σ)
    (d : Nat) (dp : List (String × ℚ)) (g : TradeSignal)
    (hbt : b.rm.backtest_mode = true)
    (hnone : (g.signal = .SELL ∨ g.signal = .CLOSE) → 0 < effectivePrice g dp →
      alookup g.code b.positions = none) :
    executeSignal S b d dp g = .ok b ∨ executeSignal S b d dp g = .error b := by
  simp only [executeSignal]
  by_cases hp : effectivePrice g dp ≤ 0
  · rw [if_pos hp]
    exact Or.inl rfl
  · rw [if_neg hp]
    cases hg : g.signal with
    | BUY => exact executeBuy_backtest S b d g (effectivePrice g dp) hbt
    | SELL =>
      rw [executeSell_none S b d g (effectivePrice g dp)
        (hnone (Or.inl hg) (lt_of_not_le hp))]
      exact Or.inl rfl
    | HOLD => exact Or.inl rfl
    | CLOSE =>
      rw [executeSell_none S b d g (effectivePrice g dp)
        (hnone (Or.inr hg) (lt_of_not_le hp))]
      exact Or.inl rfl

/-- Running a whole signal list from such a state changes nothing: the run
ends (normally or at the risk gate's raise) with the entering state. -/
theorem processSignals_run2 (S : Strategy σ κ) (d : Nat) (dp : List (String × ℚ)) :
    ∀ (L : List TradeSignal) (b : EngineState σ),
      b.rm.backtest_mode = true →
      (∀ g ∈ L, (g.signal = .SELL ∨ g.signal = .CLOSE) → 0 < effectivePrice g dp →
        alookup g.code b.positions = none) →
      processSignals S b d dp L = .ok b ∨ processSignals S b d dp L = .error b := by
  intro L
  induction L with
  | nil => exact fun b _ _ => Or.inl rfl
  | cons g L ih =>
    intro b hbt hnone
    simp only [processSignals]
    rcases executeSignal_backtest_fixed S b d dp g hbt
        (hnone g (List.mem_cons_self g L)) with hok | herr
    · rw [hok]
      exact ih b hbt (fun g2 hg2 => hnone g2 (List.mem_cons_of_mem g hg2))
    · rw [herr]
      exact Or.inr rfl

/-- For a pure strategy (scheduling, preparation and generation read nothing
from the mutable strategy state or the equity history), the signal list that
step 3 produces is the same from any two engine states on the same day over
the same dataset. -/
theorem generateStrategySignals_pure {σ κ : Type} (S : Strategy σ κ)
    (fSkip : Nat → Bool) (fPrep : List (String × List ℚ) → Option κ)
    (fGen : κ → List TradeSignal)
    (hS : ∀ s d h, S.shouldSkipDate s d h = fSkip d)
    (hP : ∀ s t, S.prepareSignalKwargs s t = fPrep t)
    (hG : ∀ s k, S.generateSignals s k = (fGen k, s))
    (st st2 : EngineState σ) (d : Nat) (data : PriceData) :
    (generateStrategySignals S st d data).2.1 =
      (generateStrategySignals S st2 d data).2.1 := by
  simp only [generateStrategySignals, hS, hP, hG]
  split_ifs with h1 h2
  · rfl
  · rfl
  · split <;> rfl

/-- C9: the amended idempotence.  The literal claim is refuted by
`c9_idempotence_counterexample` (a protocol-conforming strategy may emit
different signals on the rerun once its execution callback has fired), but it
holds for pure strategies — scheduling, preparation and signal generation not
reading the mutable strategy state — which is what an already-fully-processed
day with no new data amounts to.  In backtest mode, from a duplicate-free
position dict, rerunning `_simulate_day` on the same date with the same closes
and dataset appends no new trade: the second run regenerates the same signal
list, every SELL and CLOSE code was already erased by the first run, and every
BUY is dropped or raises at the risk gate, so the ledger is unchanged whether
the rerun returns or raises. -/
theorem c9_idempotence_pure_strategies {σ κ : Type} (S : Strategy σ κ)
    (fSkip : Nat → Bool) (fPrep : List (String × List ℚ) → Option κ)
    (fGen : κ → List TradeSignal)
    (hS : ∀ s d h, S.shouldSkipDate s d h = fSkip d)
    (hP : ∀ s t, S.prepareSignalKwargs s t = fPrep t)
    (hG : ∀ s k, S.generateSignals s k = (fGen k, s))
    (st : EngineState σ) (date : Nat) (dp : List (String × ℚ)) (data : PriceData)
    (hbt : st.rm.backtest_mode = true)
    (hnd : (st.positions.map (fun p => p.1)).Nodup) :
    match simulateDay S st date dp data with
    | .ok s1 =>
      match simulateDay S s1 date dp data with
      | .ok s2 => s2.trades = s1.trades
      | .error e => e.trades = s1.trades
    | .error _ => True := by
  cases hrun1 : simulateDay S st date dp data with
  | error e => trivial
  | ok s1 =>
    simp only [simulateDay] at hrun1
    cases hps1 : processSignals S (afterSignalsState S st date dp data).1 date dp
        (afterSignalsState S st date dp data).2 with
    | error e2 =>
      rw [hps1] at hrun1
      cases hrun1
    | ok st4 =>
      rw [hps1] at hrun1
      have hs1 : s1 = recordEquity st4 date dp := by
        injection hrun1 with h
        exact h.symm
      subst hs1
      show match simulateDay S (recordEquity st4 date dp) date dp data with
        | .ok s2 => s2.trades = (recordEquity st4 date dp).trades
        | .error e2 => e2.trades = (recordEquity st4 date dp).trades
      have hbtpre : (afterSignalsState S st date dp data).1.rm.backtest_mode = true := by
        show (checkStopLosses S (updatePositions st dp) date dp).rm.backtest_mode = true
        rw [(checkStopLosses_shape S (updatePositions st dp) date dp).2.1]
        exact hbt
      have hnd1 : ((updatePositions st dp).positions.map (fun p => p.1)).Nodup := by
        rw [updatePositions_keys]
        exact hnd
      have hndpre :
          ((afterSignalsState S st date dp data).1.positions.map (fun p => p.1)).Nodup := by
        show ((checkStopLosses S (updatePositions st dp) date dp).positions.map
          (fun p => p.1)).Nodup
        exact List.Nodup.sublist
          (List.Sublist.map _ (checkStopLosses_sublist S (updatePositions st dp) date dp)) hnd1
      obtain ⟨hsubs, hbt4, hstp4, hsell4⟩ :=
        processSignals_run1 S date dp (afterSignalsState S st date dp data).2
          (afterSignalsState S st date dp data).1 st4 hbtpre hndpre hps1
      have hBbt : (recordEquity st4 date dp).rm.backtest_mode = true := by
        rw [(recordEquity_rm_cfg st4 date dp).1]
        exact hbt4
      have hpre_stp : (afterSignalsState S st date dp data).1.rm.stop_loss_pct
          = (updatePositions st dp).rm.stop_loss_pct := by
        show (checkStopLosses S (updatePositions st dp) date dp).rm.stop_loss_pct = _
        exact (checkStopLosses_shape S (updatePositions st dp) date dp).2.2
      have hBstp : (recordEquity st4 date dp).rm.stop_loss_pct
          = (updatePositions st dp).rm.stop_loss_pct := by
        rw [(recordEquity_rm_cfg st4 date dp).2, hstp4, hpre_stp]
      have hstopnil : (updatePositions (recordEquity st4 date dp) dp).positions.filter
          (stopTriggered (updatePositions (recordEquity st4 date dp) dp) dp) = [] := by
        rw [List.filter_eq_nil_iff]
        intro cp hcp htrig
        obtain ⟨cp0, h0, hkey, hentry⟩ := updatePositions_mem hcp
        have h0b : cp0 ∈ st4.positions := h0
        have h0d : cp0 ∈ (checkStopLosses S (updatePositions st dp) date dp).positions :=
          hsubs.subset h0b
        obtain ⟨h0e, hnotrig⟩ := checkStopLosses_mem S (updatePositions st dp) date dp hnd1 h0d
        have hcfg : (updatePositions (recordEquity st4 date dp) dp).rm.stop_loss_pct
            = (updatePositions st dp).rm.stop_loss_pct := hBstp
        rw [stopTriggered_congr (updatePositions (recordEquity st4 date dp) dp)
          (updatePositions st dp) dp cp cp0 hcfg hkey hentry] at htrig
        rw [hnotrig] at htrig
        cases htrig
      have hstop2 : checkStopLosses S (updatePositions (recordEquity st4 date dp) dp) date dp
          = updatePositions (recordEquity st4 date dp) dp :=
        checkStopLosses_of_no_trigger S _ date dp hstopnil
      have hLeq : (afterSignalsState S (recordEquity st4 date dp) date dp data).2
          = (afterSignalsState S st date dp data).2 := by
        show (generateStrategySignals S
            (checkStopLosses S (updatePositions (recordEquity st4 date dp) dp) date dp)
            date data).2.1
          = (generateStrategySignals S
            (checkStopLosses S (updatePositions st dp) date dp) date data).2.1
        exact generateStrategySignals_pure S fSkip fPrep fGen hS hP hG _ _ date data
      have hnone2 : ∀ g ∈ (afterSignalsState S (recordEquity st4 date dp) date dp data).2,
          (g.signal = .SELL ∨ g.signal = .CLOSE) → 0 < effectivePrice g dp →
          alookup g.code
            (afterSignalsState S (recordEquity st4 date dp) date dp data).1.positions
            = none := by
        intro g hg hsig hpr
        rw [hLeq] at hg
        have h4 : alookup g.code st4.positions = none := hsell4 g hg hsig hpr
        show alookup g.code
          (checkStopLosses S (updatePositions (recordEquity st4 date dp) dp) date dp).positions
          = none
        rw [hstop2]
        exact updatePositions_alookup_none (recordEquity st4 date dp) dp g.code h4
      have hbt2 : (afterSignalsState S (recordEquity st4 date dp) date dp data).1.rm.backtest_mode
          = true := by
        show (checkStopLosses S (updatePositions (recordEquity st4 date dp) dp)
          date dp).rm.backtest_mode = true
        rw [hstop2]
        exact hBbt
      rcases processSignals_run2 S date dp
          (afterSignalsState S (recordEquity st4 date dp) date dp data).2
          (afterSignalsState S (recordEquity st4 date dp) date dp data).1 hbt2 hnone2
          with h2 | h2
      · have hsd2 : simulateDay S (recordEquity st4 date dp) date dp data
            = .ok (recordEquity
                (afterSignalsState S (recordEquity st4 date dp) date dp data).1 date dp) := by
          simp only [simulateDay]
          rw [h2]
        rw [hsd2]
        show (checkStopLosses S (updatePositions (recordEquity st4 date dp) dp)
          date dp).trades = st4.trades
        rw [hstop2]
        rfl
      · have hsd2 : simulateDay S (recordEquity st4 date dp) date dp data
            = .error ((afterSignalsState S (recordEquity st4 date dp) date dp data).1) := by
          simp only [simulateDay]
          rw [h2]
        rw [hsd2]
        show (checkStopLosses S (updatePositions (recordEquity st4 date dp) dp)
          date dp).trades = st4.trades
        rw [hstop2]
        rfl

/-- Witness for C9's amended theorem: the do-nothing strategy is pure, and the
fresh scenario-D state is a backtest state with a duplicate-free (empty)
position dict. -/
theorem c9_idempotence_pure_strategies_witness :
    stD.rm.backtest_mode = true ∧
    (match simulateDay trivialStrategy stD 1 [("A", (100 : ℚ))] dataW with
     | .ok s1 =>
       match simulateDay trivialStrategy s1 1 [("A", (100 : ℚ))] dataW with
       | .ok s2 => s2.trades = s1.trades
       | .error e => e.trades = s1.trades
     | .error _ => True) :=
  ⟨rfl, c9_idempotence_pure_strategies trivialStrategy (fun _ => false) (fun _ => none)
    (fun _ => []) (fun _ _ _ => rfl) (fun _ _ => rfl) (fun _ _ => rfl) stD 1
    [("A", (100 : ℚ))] dataW rfl (by simp [stD])⟩

/-! ## C1 — no look-ahead

The signal-generation step is instrumented by the ghost log: each simulated
day appends one entry holding the truncated series handed to the strategy and
the signals it returned.  C1 is the two-run noninterference of that log up to
day `D` for datasets that agree up to `D`, together with the only-past
property of every logged series.  First the log bookkeeping: nothing but
step 3 ever touches the ghost log. -/

theorem executeSell_siglog (S : Strategy σ κ) (st : EngineState σ)
    (d : Nat) (g : TradeSignal) (p : ℚ) :
    (executeSell S st d g p).siglog = st.siglog := by
  unfold executeSell
  cases alookup g.code st.positions <;> rfl

theorem updatePositions_siglog (st : EngineState σ) (dp : List (String × ℚ)) :
    (updatePositions st dp).siglog = st.siglog := rfl

theorem checkStopLosses_siglog (S : Strategy σ κ) (st : EngineState σ)
    (d : Nat) (dp : List (String × ℚ)) :
    (checkStopLosses S st d dp).siglog = st.siglog := by
  unfold checkStopLosses
  generalize st.positions.filter (stopTriggered st dp) = l
  induction l generalizing st with
  | nil => rfl
  | cons c t ih =>
    rw [List.foldl_cons]
    rw [ih (executeSell S st d (stopCloseSignal c) ((alookup c.1 dp).getD 0)),
      executeSell_siglog]

theorem buyRiskAndFill_siglog (S : Strategy σ κ) (st : EngineState σ)
    (d : Nat) (g : TradeSignal) (p ep : ℚ) (q : Int) (gross comm net : ℚ) :
    (stateOf (buyRiskAndFill S st d g p ep q gross comm net)).siglog =
      st.siglog := by
  cases h : canOpenPosition st.rm g.code gross "" with
  | error e => simp [buyRiskAndFill, stateOf, h]
  | ok r =>
    cases r with
    | accept => simp [buyRiskAndFill, stateOf, h, buyFill]
    | reject rr => simp [buyRiskAndFill, stateOf, h]

theorem buySized_siglog (S : Strategy σ κ) (st : EngineState σ)
    (d : Nat) (g : TradeSignal) (p ep : ℚ) (q : Int) :
    (stateOf (buySized S st d g p ep q)).siglog = st.siglog := by
  simp only [buySized]
  split_ifs <;>
    first
    | rfl
    | apply buyRiskAndFill_siglog

theorem executeBuy_siglog (S : Strategy σ κ) (st : EngineState σ)
    (d : Nat) (g : TradeSignal) (p : ℚ) :
    (stateOf (executeBuy S st d g p)).siglog = st.siglog := by
  simp only [executeBuy]
  split_ifs <;>
    first
    | rfl
    | apply buySized_siglog

theorem executeSignal_siglog (S : Strategy σ κ) (st : EngineState σ)
    (d : Nat) (dp : List (String × ℚ)) (g : TradeSignal) :
    (stateOf (executeSignal S st d dp g)).siglog = st.siglog := by
  simp only [executeSignal]
  split_ifs
  · rfl
  · cases g.signal
    · exact executeBuy_siglog S st d g (effectivePrice g dp)
    · simp only [stateOf]; exact executeSell_siglog S st d g (effectivePrice g dp)
    · rfl
    · simp only [stateOf]; exact executeSell_siglog S st d g (effectivePrice g dp)

theorem processSignals_siglog (S : Strategy σ κ) (gs : List TradeSignal)
    (st : EngineState σ) (d : Nat) (dp : List (String × ℚ)) :
    (stateOf (processSignals S st d dp gs)).siglog = st.siglog := by
  induction gs generalizing st with
  | nil => rfl
  | cons g t ih =>
    simp only [processSignals]
    cases h : executeSignal S st d dp g with
    | error e =>
      have := executeSignal_siglog S st d dp g
      rw [h] at this
      simpa [stateOf] using this
    | ok st2 =>
      have := executeSignal_siglog S st d dp g
      rw [h] at this
      simp only [stateOf] at this
      rw [ih st2, this]

/-- Step 3 appends exactly one ghost-log entry: the day, the truncated series
and the generated signals, computed at the post-stop-loss state. -/
theorem afterSignalsState_siglog (S : Strategy σ κ) (st : EngineState σ)
    (date : Nat) (dp : List (String × ℚ)) (data : PriceData) :
    (afterSignalsState S st date dp data).1.siglog =
      st.siglog ++ [(⟨date,
        (generateStrategySignals S
          (checkStopLosses S (updatePositions st dp) date dp) date data).1,
        (generateStrategySignals S
          (checkStopLosses S (updatePositions st dp) date dp) date data).2.1⟩ : SigLogEntry)] := by
  simp only [afterSignalsState]
  rw [checkStopLosses_siglog, updatePositions_siglog]

/-- A simulated day — whether it returns or raises — appends exactly one
ghost-log entry, dated that day. -/
theorem simulateDay_siglog (S : Strategy σ κ) (st : EngineState σ)
    (date : Nat) (dp : List (String × ℚ)) (data : PriceData) :
    (stateOf (simulateDay S st date dp data)).siglog =
      st.siglog ++ [(⟨date,
        (generateStrategySignals S
          (checkStopLosses S (updatePositions st dp) date dp) date data).1,
        (generateStrategySignals S
          (checkStopLosses S (updatePositions st dp) date dp) date data).2.1⟩ : SigLogEntry)] := by
  have hpre := afterSignalsState_siglog S st date dp data
  simp only [simulateDay]
  cases hps : processSignals S (afterSignalsState S st date dp data).1 date dp
      (afterSignalsState S st date dp data).2 with
  | error e =>
    have := processSignals_siglog S (afterSignalsState S st date dp data).2
      (afterSignalsState S st date dp data).1 date dp
    rw [hps] at this
    simp only [stateOf] at this
    simp only [stateOf]
    rw [this, hpre]
  | ok st4 =>
    have hh4 := processSignals_siglog S (afterSignalsState S st date dp data).2
      (afterSignalsState S st date dp data).1 date dp
    rw [hps] at hh4
    simp only [stateOf] at hh4
    simp only [stateOf]
    show (recordEquity st4 date dp).siglog = _
    have hrec : (recordEquity st4 date dp).siglog = st4.siglog := by
      simp only [recordEquity]
    rw [hrec, hh4, hpre]

/-- On date-sorted bars the bisect prefix is a plain filter. -/
theorem getPricesUntil_sorted {bars : Bars}
    (hs : List.Sorted (fun a b : Nat × ℚ => a.1 ≤ b.1) bars) (d : Nat) :
    getPricesUntil bars d =
      (bars.filter (fun b => decide (b.1 ≤ d))).map (fun b => b.2) := by
  unfold getPricesUntil sortBarsByDate
  rw [List.Sorted.insertionSort_eq hs]

theorem filter_le_of_le {bars : Bars} {d D : Nat} (hdD : d ≤ D) :
    bars.filter (fun b => decide (b.1 ≤ d)) =
      (bars.filter (fun b => decide (b.1 ≤ D))).filter (fun b => decide (b.1 ≤ d)) := by
  rw [List.filter_filter]
  apply List.filter_congr
  intro b _
  by_cases hb : b.1 ≤ d
  · simp [hb, le_trans hb hdD]
  · simp [hb]

theorem lookupBar_trunc {bars : Bars} {d D : Nat} (hdD : d ≤ D) :
    lookupBar bars d = lookupBar (bars.filter (fun b => decide (b.1 ≤ D))) d := by
  unfold lookupBar
  rw [List.filter_filter]
  have : bars.filter (fun b => b.1 == d) =
      bars.filter (fun b => (b.1 == d) && decide (b.1 ≤ D)) := by
    apply List.filter_congr
    intro b _
    by_cases hb : b.1 = d
    · simp [hb, hdD]
    · simp [beq_iff_eq, hb]
  rw [this]

/-- Two datasets whose day-`D` truncations coincide give equal `filterMap`
outputs for any per-instrument functions that agree on truncation-equal
entries. -/
theorem filterMap_congr_of_trunc {β : Type} (D : Nat)
    (F1 F2 : String × Bars → Option β) :
    ∀ (d1 d2 : PriceData),
      d1.map (fun cb => (cb.1, cb.2.filter (fun b => decide (b.1 ≤ D)))) =
        d2.map (fun cb => (cb.1, cb.2.filter (fun b => decide (b.1 ≤ D)))) →
      (∀ cb1 cb2, cb1 ∈ d1 → cb2 ∈ d2 → cb1.1 = cb2.1 →
        cb1.2.filter (fun b => decide (b.1 ≤ D)) =
          cb2.2.filter (fun b => decide (b.1 ≤ D)) →
        F1 cb1 = F2 cb2) →
      d1.filterMap F1 = d2.filterMap F2 := by
  intro d1
  induction d1 with
  | nil =>
    intro d2 hmap _
    cases d2 with
    | nil => rfl
    | cons b t2 => exact absurd hmap (by simp)
  | cons a t ih =>
    intro d2 hmap hpt
    cases d2 with
    | nil => exact absurd hmap (by simp)
    | cons b t2 =>
      simp only [List.map_cons, List.cons.injEq, Prod.mk.injEq] at hmap
      obtain ⟨⟨hk, hf⟩, hrest⟩ := hmap
      simp only [List.filterMap_cons]
      have hhead : F1 a = F2 b :=
        hpt a b (List.mem_cons_self a t) (List.mem_cons_self b t2) hk hf
      have htail : t.filterMap F1 = t2.filterMap F2 := ih t2 hrest
        (fun cb1 cb2 h1 h2 => hpt cb1 cb2 (List.mem_cons_of_mem a h1)
          (List.mem_cons_of_mem b h2))
      rw [hhead, htail]

/-- Two datasets agreeing up to `D` have the same closes on any day `d ≤ D`. -/
theorem getDayPrices_congr {D : Nat} {data1 data2 : PriceData}
    (hag : agreeUpTo D data1 data2) {d : Nat} (hd : d ≤ D) :
    getDayPrices data1 d = getDayPrices data2 d := by
  simp only [agreeUpTo, truncData] at hag
  unfold getDayPrices
  apply filterMap_congr_of_trunc D _ _ data1 data2 hag
  intro cb1 cb2 _ _ hk hf
  rw [hk, lookupBar_trunc hd, hf, ← lookupBar_trunc hd]

theorem getPricesUntil_congr {D : Nat} {bars1 bars2 : Bars}
    (hs1 : List.Sorted (fun a b : Nat × ℚ => a.1 ≤ b.1) bars1)
    (hs2 : List.Sorted (fun a b : Nat × ℚ => a.1 ≤ b.1) bars2)
    (hf : bars1.filter (fun b => decide (b.1 ≤ D)) =
      bars2.filter (fun b => decide (b.1 ≤ D)))
    {d : Nat} (hd : d ≤ D) :
    getPricesUntil bars1 d = getPricesUntil bars2 d := by
  rw [getPricesUntil_sorted hs1, getPricesUntil_sorted hs2,
    filter_le_of_le hd, hf, ← filter_le_of_le hd]

/-- Step 3 is blind to bars beyond `D` on any day `d ≤ D`: its whole output
(truncated series, signals, advanced strategy state) agrees across datasets
that agree up to `D`. -/
theorem generateStrategySignals_congr {σ κ : Type} (S : Strategy σ κ) {D : Nat}
    {data1 data2 : PriceData} (hag : agreeUpTo D data1 data2)
    (hs1 : SortedData data1) (hs2 : SortedData data2)
    (st : EngineState σ) {d : Nat} (hd : d ≤ D) :
    generateStrategySignals S st d data1 = generateStrategySignals S st d data2 := by
  have hag2 := hag
  simp only [agreeUpTo, truncData] at hag2
  have htr : data1.filterMap (fun cb =>
      let prices := getPricesUntil cb.2 d
      if prices.isEmpty then none else some (cb.1, prices)) =
    data2.filterMap (fun cb =>
      let prices := getPricesUntil cb.2 d
      if prices.isEmpty then none else some (cb.1, prices)) := by
    apply filterMap_congr_of_trunc D _ _ data1 data2 hag2
    intro cb1 cb2 h1 h2 hk hf
    have hgp : getPricesUntil cb1.2 d = getPricesUntil cb2.2 d :=
      getPricesUntil_congr (hs1 cb1 h1) (hs2 cb2 h2) hf hd
    simp only [hgp, hk]
  unfold generateStrategySignals
  rw [htr]

theorem afterSignalsState_congr {σ κ : Type} (S : Strategy σ κ) {D : Nat}
    {data1 data2 : PriceData} (hag : agreeUpTo D data1 data2)
    (hs1 : SortedData data1) (hs2 : SortedData data2)
    (st : EngineState σ) (dp : List (String × ℚ)) {d : Nat} (hd : d ≤ D) :
    afterSignalsState S st d dp data1 = afterSignalsState S st d dp data2 := by
  simp only [afterSignalsState]
  rw [generateStrategySignals_congr S hag hs1 hs2
    (checkStopLosses S (updatePositions st dp) d dp) hd]

theorem simulateDay_data_congr {σ κ : Type} (S : Strategy σ κ) {D : Nat}
    {data1 data2 : PriceData} (hag : agreeUpTo D data1 data2)
    (hs1 : SortedData data1) (hs2 : SortedData data2)
    (st : EngineState σ) (dp : List (String × ℚ)) {d : Nat} (hd : d ≤ D) :
    simulateDay S st d dp data1 = simulateDay S st d dp data2 := by
  unfold simulateDay
  rw [afterSignalsState_congr S hag hs1 hs2 st dp hd]

theorem runDays_append (S : Strategy σ κ) (data : PriceData) :
    ∀ (l1 l2 : List Nat) (st : EngineState σ),
      runDays S st data (l1 ++ l2) =
        match runDays S st data l1 with
        | .error e => .error e
        | .ok s => runDays S s data l2 := by
  intro l1
  induction l1 with
  | nil => intro l2 st; rfl
  | cons d t ih =>
    intro l2 st
    show runDays S st data (d :: (t ++ l2)) = _
    simp only [runDays]
    by_cases hdp : (getDayPrices data d).isEmpty = true
    · rw [if_pos hdp, if_pos hdp]
      exact ih l2 st
    · rw [if_neg hdp, if_neg hdp]
      cases hsd : simulateDay S st d (getDayPrices data d) data with
      | error e => rfl
      | ok st2 => exact ih l2 st2

/-- The day loop runs identically over both datasets while the processed days
stay at or below the agreement horizon. -/
theorem runDays_prefix_congr {σ κ : Type} (S : Strategy σ κ) {D : Nat}
    {data1 data2 : PriceData} (hag : agreeUpTo D data1 data2)
    (hs1 : SortedData data1) (hs2 : SortedData data2) :
    ∀ (P : List Nat), (∀ d ∈ P, d ≤ D) → ∀ st : EngineState σ,
      runDays S st data1 P = runDays S st data2 P := by
  intro P
  induction P with
  | nil => intro _ st; rfl
  | cons d t ih =>
    intro hP st
    have hd : d ≤ D := hP d (List.mem_cons_self d t)
    have htl : ∀ x ∈ t, x ≤ D := fun x hx => hP x (List.mem_cons_of_mem d hx)
    simp only [runDays]
    rw [getDayPrices_congr hag hd]
    by_cases hdp : (getDayPrices data2 d).isEmpty = true
    · rw [if_pos hdp, if_pos hdp]
      exact ih htl st
    · rw [if_neg hdp, if_neg hdp]
      rw [simulateDay_data_congr S hag hs1 hs2 st (getDayPrices data2 d) hd]
      cases hsd : simulateDay S st d (getDayPrices data2 d) data2 with
      | error e => rfl
      | ok st2 => exact ih htl st2

/-- Days strictly beyond `D` contribute only ghost-log entries dated beyond
`D`: the log filtered to `D` never changes again. -/
theorem runDays_log_hi (S : Strategy σ κ) (data : PriceData) (D : Nat) :
    ∀ (T : List Nat), (∀ d ∈ T, ¬ d ≤ D) → ∀ st : EngineState σ,
      (logOf (runDays S st data T)).filter (fun e => decide (e.date ≤ D)) =
        st.siglog.filter (fun e => decide (e.date ≤ D)) := by
  intro T
  induction T with
  | nil => intro _ st; rfl
  | cons d t ih =>
    intro hT st
    have hd : ¬ d ≤ D := hT d (List.mem_cons_self d t)
    have htl : ∀ x ∈ t, ¬ x ≤ D := fun x hx => hT x (List.mem_cons_of_mem d hx)
    simp only [runDays]
    by_cases hdp : (getDayPrices data d).isEmpty = true
    · rw [if_pos hdp]
      exact ih htl st
    · rw [if_neg hdp]
      have hsl := simulateDay_siglog S st d (getDayPrices data d) data
      cases hsd : simulateDay S st d (getDayPrices data d) data with
      | error e =>
        rw [hsd] at hsl
        simp only [stateOf] at hsl
        show (e.siglog.filter (fun e => decide (e.date ≤ D))) = _
        rw [hsl, List.filter_append]
        simp [hd]
      | ok st2 =>
        rw [hsd] at hsl
        simp only [stateOf] at hsl
        show (logOf (runDays S st2 data t)).filter (fun e => decide (e.date ≤ D)) = _
        rw [ih htl st2, hsl, List.filter_append]
        simp [hd]

/-- A sorted day list splits as the days at or below `D` followed by the days
beyond `D`. -/
theorem sorted_split_le (D : Nat) :
    ∀ (l : List Nat), l.Sorted (fun a b => a ≤ b) →
      l = l.filter (fun d => decide (d ≤ D)) ++ l.filter (fun d => !decide (d ≤ D)) := by
  intro l
  induction l with
  | nil => intro _; rfl
  | cons a t ih =>
    intro hs
    by_cases ha : a ≤ D
    · conv_lhs => rw [ih hs.of_cons]
      simp [ha]
    · have hall : ∀ x ∈ a :: t, ¬ x ≤ D := by
        intro x hx
        rcases List.mem_cons.mp hx with rfl | hxt
        · exact ha
        · intro hxD
          exact ha (le_trans (List.rel_of_sorted_cons hs x hxt) hxD)
      have h1 : (a :: t).filter (fun d => decide (d ≤ D)) = [] := by
        rw [List.filter_eq_nil_iff]
        intro x hx
        simpa using hall x hx
      have h2 : (a :: t).filter (fun d => !decide (d ≤ D)) = a :: t := by
        rw [List.filter_eq_self]
        intro x hx
        simpa using hall x hx
      rw [h1, h2]
      rfl

theorem filter_gt_prop (D : Nat) (l : List Nat) :
    ∀ x ∈ l.filter (fun d => !decide (d ≤ D)), ¬ x ≤ D := by
  intro x hx
  have := (List.mem_filter.mp hx).2
  simpa using this

theorem dateIndex_sorted (data : PriceData) :
    List.Sorted (fun a b : Nat => a ≤ b) (buildDateIndex data none none) := by
  simp only [buildDateIndex]
  exact List.sorted_insertionSort _ _

theorem dateIndex_nodup (data : PriceData) :
    (buildDateIndex data none none).Nodup := by
  simp only [buildDateIndex]
  exact (List.perm_insertionSort _ _).symm.nodup (List.nodup_dedup _)

theorem mem_dateIndex_iff (data : PriceData) (x : Nat) :
    x ∈ buildDateIndex data none none ↔
      ∃ cb ∈ data, x ∈ cb.2.map (fun b => b.1) := by
  simp only [buildDateIndex, List.mem_insertionSort, List.mem_dedup,
    List.mem_flatten]
  constructor
  · rintro ⟨l, hl, hx⟩
    obtain ⟨cb, hcb, rfl⟩ := List.mem_map.mp hl
    exact ⟨cb, hcb, hx⟩
  · rintro ⟨cb, hcb, hx⟩
    exact ⟨cb.2.map (fun b => b.1), List.mem_map.mpr ⟨cb, hcb, rfl⟩, hx⟩

/-- The day indices at or below `D` coincide for datasets agreeing up to `D`. -/
theorem dateIndex_filter_congr {D : Nat} {data1 data2 : PriceData}
    (hag : agreeUpTo D data1 data2) :
    (buildDateIndex data1 none none).filter (fun d => decide (d ≤ D)) =
      (buildDateIndex data2 none none).filter (fun d => decide (d ≤ D)) := by
  have hag2 := hag
  simp only [agreeUpTo, truncData] at hag2
  have hmem : ∀ x : Nat, x ≤ D →
      ((∃ cb ∈ data1, x ∈ cb.2.map (fun b => b.1)) ↔
       (∃ cb ∈ data2, x ∈ cb.2.map (fun b => b.1))) := by
    intro x hxD
    have key : ∀ (dd : PriceData), (∃ cb ∈ dd, x ∈ cb.2.map (fun b => b.1)) ↔
        ∃ p ∈ dd.map (fun cb => (cb.1, cb.2.filter (fun b => decide (b.1 ≤ D)))),
          x ∈ p.2.map (fun b => b.1) := by
      intro dd
      constructor
      · rintro ⟨cb, hcb, hx⟩
        refine ⟨(cb.1, cb.2.filter (fun b => decide (b.1 ≤ D))),
          List.mem_map.mpr ⟨cb, hcb, rfl⟩, ?_⟩
        obtain ⟨b, hb, rfl⟩ := List.mem_map.mp hx
        exact List.mem_map.mpr ⟨b, List.mem_filter.mpr ⟨hb, by simpa using hxD⟩, rfl⟩
      · rintro ⟨p, hp, hx⟩
        obtain ⟨cb, hcb, rfl⟩ := List.mem_map.mp hp
        refine ⟨cb, hcb, ?_⟩
        obtain ⟨b, hb, rfl⟩ := List.mem_map.mp hx
        exact List.mem_map.mpr ⟨b, (List.mem_filter.mp hb).1, rfl⟩
    rw [key data1, key data2, hag2]
  have hperm : List.Perm
      ((buildDateIndex data1 none none).filter (fun d => decide (d ≤ D)))
      ((buildDateIndex data2 none none).filter (fun d => decide (d ≤ D))) := by
    rw [List.perm_ext_iff_of_nodup
      (List.Nodup.sublist (List.filter_sublist _) (dateIndex_nodup data1))
      (List.Nodup.sublist (List.filter_sublist _) (dateIndex_nodup data2))]
    intro x
    simp only [List.mem_filter, decide_eq_true_eq, mem_dateIndex_iff]
    constructor
    · rintro ⟨hx, hxD⟩
      exact ⟨(hmem x hxD).mp hx, hxD⟩
    · rintro ⟨hx, hxD⟩
      exact ⟨(hmem x hxD).mpr hx, hxD⟩
  exact List.eq_of_perm_of_sorted hperm
    (List.Pairwise.sublist (List.filter_sublist _) (dateIndex_sorted data1))
    (List.Pairwise.sublist (List.filter_sublist _) (dateIndex_sorted data2))

theorem generateStrategySignals_fst (S : Strategy σ κ) (st2 : EngineState σ)
    (d : Nat) (data : PriceData) :
    (generateStrategySignals S st2 d data).1 = [] ∨
    (generateStrategySignals S st2 d data).1 = data.filterMap (fun cb =>
      let prices := getPricesUntil cb.2 d
      if prices.isEmpty then none else some (cb.1, prices)) := by
  simp only [generateStrategySignals]
  split_ifs
  · exact Or.inl rfl
  · exact Or.inr rfl
  · split
    · exact Or.inr rfl
    · exact Or.inr rfl

/-- Everything inside a truncated series traces back to a bar of the dataset
dated on or before the day — the look-ahead guard, per entry. -/
theorem mem_truncated_past {data : PriceData} {d : Nat} {cp : String × List ℚ}
    (h : cp ∈ data.filterMap (fun cb =>
      let prices := getPricesUntil cb.2 d
      if prices.isEmpty then none else some (cb.1, prices))) :
    ∃ cb ∈ data, cb.1 = cp.1 ∧ ∀ p ∈ cp.2, ∃ b ∈ cb.2, b.1 ≤ d ∧ b.2 = p := by
  obtain ⟨cb, hcb, hf⟩ := List.mem_filterMap.mp h
  have hf2 : (if (getPricesUntil cb.2 d).isEmpty
      then none else some (cb.1, getPricesUntil cb.2 d)) = some cp := hf
  by_cases hte : (getPricesUntil cb.2 d).isEmpty = true
  · rw [if_pos hte] at hf2
    cases hf2
  · rw [if_neg hte] at hf2
    have hcp2 : (cb.1, getPricesUntil cb.2 d) = cp := by
      injection hf2
    subst hcp2
    refine ⟨cb, hcb, rfl, ?_⟩
    intro p hp
    have hp2 : p ∈ getPricesUntil cb.2 d := hp
    unfold getPricesUntil at hp2
    obtain ⟨b, hb, rfl⟩ := List.mem_map.mp hp2
    have hb2 := List.mem_filter.mp hb
    refine ⟨b, ?_, by simpa using hb2.2, rfl⟩
    have hbs : b ∈ sortBarsByDate cb.2 := hb2.1
    unfold sortBarsByDate at hbs
    exact (List.perm_insertionSort _ _).subset hbs

/-- The only-past property is preserved by the whole daily loop: every entry
the run logs (normally or up to a raise) draws only on bars dated at or before
its own day. -/
theorem runDays_log_past (S : Strategy σ κ) (data : PriceData) :
    ∀ (days : List Nat) (st : EngineState σ),
      (∀ e ∈ st.siglog, ∀ cp ∈ e.truncated, ∃ cb ∈ data, cb.1 = cp.1 ∧
        ∀ p ∈ cp.2, ∃ b ∈ cb.2, b.1 ≤ e.date ∧ b.2 = p) →
      ∀ e ∈ logOf (runDays S st data days), ∀ cp ∈ e.truncated,
        ∃ cb ∈ data, cb.1 = cp.1 ∧ ∀ p ∈ cp.2, ∃ b ∈ cb.2, b.1 ≤ e.date ∧ b.2 = p := by
  intro days
  induction days with
  | nil => intro st hinv e he; exact hinv e he
  | cons d t ih =>
    intro st hinv
    simp only [runDays]
    by_cases hdp : (getDayPrices data d).isEmpty = true
    · rw [if_pos hdp]
      exact ih st hinv
    · rw [if_neg hdp]
      have hsl := simulateDay_siglog S st d (getDayPrices data d) data
      have hstep : ∀ e ∈ (stateOf
            (simulateDay S st d (getDayPrices data d) data)).siglog,
          ∀ cp ∈ e.truncated, ∃ cb ∈ data, cb.1 = cp.1 ∧
            ∀ p ∈ cp.2, ∃ b ∈ cb.2, b.1 ≤ e.date ∧ b.2 = p := by
        rw [hsl]
        intro e he
        rcases List.mem_append.mp he with hold | hnew
        · exact hinv e hold
        · have he2 : e = ⟨d,
              (generateStrategySignals S (checkStopLosses S
                (updatePositions st (getDayPrices data d)) d (getDayPrices data d))
                d data).1,
              (generateStrategySignals S (checkStopLosses S
                (updatePositions st (getDayPrices data d)) d (getDayPrices data d))
                d data).2.1⟩ := by
            simpa using hnew
          subst he2
          intro cp hcp
          rcases generateStrategySignals_fst S (checkStopLosses S
              (updatePositions st (getDayPrices data d)) d (getDayPrices data d))
              d data with hshape | hshape
          · rw [hshape] at hcp
            cases hcp
          · rw [hshape] at hcp
            exact mem_truncated_past hcp
      cases hsd : simulateDay S st d (getDayPrices data d) data with
      | error e2 =>
        rw [hsd] at hstep
        simp only [stateOf] at hstep
        intro e he
        exact hstep e he
      | ok st2 =>
        rw [hsd] at hstep
        simp only [stateOf] at hstep
        exact ih st2 hstep

/-- C1: confirmed.  No look-ahead, as two-run noninterference over the ghost
signal log: for any two date-sorted datasets that agree on every bar dated on
or before `D`, the logs of the two full runs — each day's truncated series as
handed to the strategy and the signals generated from it — agree on every day
`d ≤ D`, whether either run completes or aborts at a raise; and every series
ever handed to the strategy draws only on bars dated at or before the day it
was generated (the equivalent single-run reading of the claim). -/
theorem c1_no_look_ahead {σ κ : Type} (S : Strategy σ κ) (st : EngineState σ)
    (data1 data2 : PriceData) (D : Nat)
    (hag : agreeUpTo D data1 data2) (hs1 : SortedData data1)
    (hs2 : SortedData data2) (hsl : st.siglog = []) :
    (logOf (runBacktest S st data1 none none)).filter
        (fun e => decide (e.date ≤ D)) =
      (logOf (runBacktest S st data2 none none)).filter
        (fun e => decide (e.date ≤ D)) ∧
    ∀ e ∈ logOf (runBacktest S st data1 none none), ∀ cp ∈ e.truncated,
      ∃ cb ∈ data1, cb.1 = cp.1 ∧
        ∀ p ∈ cp.2, ∃ b ∈ cb.2, b.1 ≤ e.date ∧ b.2 = p := by
  constructor
  · unfold runBacktest
    have hsplit1 := sorted_split_le D (buildDateIndex data1 none none)
      (dateIndex_sorted data1)
    have hsplit2 := sorted_split_le D (buildDateIndex data2 none none)
      (dateIndex_sorted data2)
    rw [hsplit1, hsplit2]
    rw [runDays_append S data1
      ((buildDateIndex data1 none none).filter (fun d => decide (d ≤ D)))
      ((buildDateIndex data1 none none).filter (fun d => !decide (d ≤ D))) st]
    rw [runDays_append S data2
      ((buildDateIndex data2 none none).filter (fun d => decide (d ≤ D)))
      ((buildDateIndex data2 none none).filter (fun d => !decide (d ≤ D))) st]
    rw [dateIndex_filter_congr hag]
    have hP2 : ∀ d ∈ (buildDateIndex data2 none none).filter
        (fun d => decide (d ≤ D)), d ≤ D := by
      intro x hx
      simpa using (List.mem_filter.mp hx).2
    rw [runDays_prefix_congr S hag hs1 hs2
      ((buildDateIndex data2 none none).filter (fun d => decide (d ≤ D))) hP2 st]
    cases hpre : runDays S st data2
        ((buildDateIndex data2 none none).filter (fun d => decide (d ≤ D))) with
    | error e => rfl
    | ok s =>
      show (logOf (runDays S s data1
          ((buildDateIndex data1 none none).filter (fun d => !decide (d ≤ D))))).filter
            (fun e => decide (e.date ≤ D)) =
        (logOf (runDays S s data2
          ((buildDateIndex data2 none none).filter (fun d => !decide (d ≤ D))))).filter
            (fun e => decide (e.date ≤ D))
      rw [runDays_log_hi S data1 D
        ((buildDateIndex data1 none none).filter (fun d => !decide (d ≤ D)))
        (filter_gt_prop D _) s,
        runDays_log_hi S data2 D
        ((buildDateIndex data2 none none).filter (fun d => !decide (d ≤ D)))
        (filter_gt_prop D _) s]
  · unfold runBacktest
    apply runDays_log_past S data1 (buildDateIndex data1 none none) st
    rw [hsl]
    intro e he
    exact absurd he (List.not_mem_nil e)

/-- Witness for C1 at a concrete pair of datasets diverging after day 2. -/
theorem c1_no_look_ahead_witness :
    agreeUpTo 2 dataC1a dataC1b ∧
    ((logOf (runBacktest trivialStrategy stD dataC1a none none)).filter
        (fun e => decide (e.date ≤ 2)) =
      (logOf (runBacktest trivialStrategy stD dataC1b none none)).filter
        (fun e => decide (e.date ≤ 2)) ∧
     ∀ e ∈ logOf (runBacktest trivialStrategy stD dataC1a none none),
       ∀ cp ∈ e.truncated, ∃ cb ∈ dataC1a, cb.1 = cp.1 ∧
         ∀ p ∈ cp.2, ∃ b ∈ cb.2, b.1 ≤ e.date ∧ b.2 = p) :=
  ⟨rfl, c1_no_look_ahead trivialStrategy stD dataC1a dataC1b 2 rfl
    (by intro cb hcb; simp only [dataC1a, List.mem_singleton] at hcb; subst hcb; decide)
    (by intro cb hcb; simp only [dataC1b, List.mem_singleton] at hcb; subst hcb; decide)
    rfl⟩

end TB
